import Mathlib

/-!
Verification of the simulation core of the `summercards/music` falling-note
rhythm game against its specification.

The JavaScript sources are shallowly embedded here:

* numbers are modelled as `ℚ` (the game never relies on float rounding for
  the properties below; `Math.sin` and `Math.PI` are abstracted by a
  `TrigModel` parameter since none of the scheduling / scoring / editor
  properties depend on their values, and the entry-scale curve of
  `Player.update` is additionally modelled over `ℝ` with `Real.sin` where its
  exact values matter);
* `Math.random()` draws are abstracted by an `Oracle` parameter, seeded by a
  ghost draw counter `rngCount` carried in the scene state;
* the mutable scene objects become records, and each JS method becomes a
  function from the record to the record.

Source files: `gameScene.js` / `block.js` (src/unnamed/part_002),
`editorScene.js` / `util.js` (src/unnamed/part_001, second copy, the one with
the delete-mode button), `player.js` (src/scripts/player.js), `effects.js`
(src/scripts/effects.js), `config.js` (src/unnamed/part_003).
-/

namespace MusicGame

/-- A note event of a pattern: `{ time, type, lane }` (levels/song1.js). -/
structure NoteEvent where
  time : ℚ
  type : ℤ
  lane : ℤ
  deriving DecidableEq, Repr

/-- A block type descriptor from `config.blockTypes`: colour, optional effect
tag, and the optional per-type `score` and `speed` fields read (with defaults)
by `gameScene.js`. -/
structure BlockType where
  color : String
  effect : Option String
  score : Option ℚ
  speed : Option ℚ
  deriving DecidableEq, Repr

/-- `config.numLanes` (config.js). -/
def numLanes : ℕ := 6

/-- `config.scoring.hit` (config.js). -/
def scoringHit : ℚ := 1

/-- `config.scoring.miss` (config.js). -/
def scoringMiss : ℚ := 1

/-- `config.blockTypes` (config.js): pink plain, blue rotating, yellow
pulsing.  None of the entries carries a `score` or `speed` field. -/
def configBlockTypes : List BlockType :=
  [ ⟨"#ff6bcb", none, none, none⟩,
    ⟨"#5b86e5", some "rotate", none, none⟩,
    ⟨"#f8c967", some "pulse", none, none⟩ ]

/-- Fallback descriptor used by total list lookups (never reached on the code
paths the source guards). -/
def defaultBlockType : BlockType := ⟨"#ffffff", none, none, none⟩

/-- Abstraction of `Math.sin` and `Math.PI`.  The scheduling, scoring and
editor claims are independent of their values, so every theorem below is
proved for an arbitrary `TrigModel`. -/
structure TrigModel where
  sin : ℚ → ℚ
  pi : ℚ

/-- Abstraction of the `Math.random()` draws: `x seed` stands for the random
horizontal position drawn by `randomRange` in `_spawnBlockWithTypeDef`,
`typeIdx seed % 3` for `Math.floor(Math.random() * config.blockTypes.length)`
and `lane seed % 6` for `Math.floor(Math.random() * config.numLanes)`. -/
structure Oracle where
  x : ℕ → ℚ
  typeIdx : ℕ → ℕ
  lane : ℕ → ℕ

/-- `util.rectIntersect` (util.js): strict-overlap AABB test. -/
def rectIntersect (ax ay aw ah bx b_y bw bh : ℚ) : Bool :=
  decide (ax < bx + bw) && decide (bx < ax + aw) &&
  decide (ay < b_y + bh) && decide (b_y < ay + ah)

/-- A falling block (block.js constructor): centre x, top y, side length,
falling speed, type descriptor, and the per-effect animation state. -/
structure Block where
  x : ℚ
  y : ℚ
  size : ℚ
  speed : ℚ
  type : BlockType
  rotation : ℚ
  pulseTime : ℚ
  alpha : ℚ
  deriving DecidableEq, Repr

/-- `Block.update(dt)` (block.js): constant-speed fall plus the per-type
animation (`rotate` / `pulse` / `fade` / default no-op). -/
def Block.update (tm : TrigModel) (dt : ℚ) (b : Block) : Block :=
  let b := { b with y := b.y + b.speed * dt }
  match b.type.effect with
  | some "rotate" => { b with rotation := b.rotation + dt * tm.pi * 2 }
  | some "pulse" =>
      let pulseTime := b.pulseTime + dt
      { b with pulseTime := pulseTime,
               alpha := 0.7 + 0.3 * tm.sin (pulseTime * tm.pi * 2) }
  | some "fade" => { b with alpha := max 0 (b.alpha - dt * 0.3) }
  | _ => b

/-- The player block (player.js constructor), with the constants taken from
`config.player` (size 60, pulse amplitude 0.15, pulse frequency 1.5). -/
structure Player where
  x : ℚ
  y : ℚ
  targetX : ℚ
  width : ℚ
  height : ℚ
  scale : ℚ
  animationTime : ℚ
  animationDuration : ℚ
  pulseTime : ℚ
  pulseAmplitude : ℚ
  pulseFrequency : ℚ
  deriving DecidableEq, Repr

/-- Player state built by the `Player` constructor for a canvas of the given
size. -/
def Player.init (canvasW canvasH : ℚ) : Player :=
  { x := (canvasW - 60) / 2
    y := canvasH - 60 - 20
    targetX := (canvasW - 60) / 2
    width := 60
    height := 60
    scale := 1
    animationTime := 0
    animationDuration := 0.8
    pulseTime := 0
    pulseAmplitude := 0.15
    pulseFrequency := 1.5 }

/-- `Player.update(dt)` (player.js): entry bounce for the first
`animationDuration` seconds, continuous pulse, composite scale, eased x. -/
def Player.update (tm : TrigModel) (dt : ℚ) (p : Player) : Player :=
  let prog : ℚ × ℚ :=
    if p.animationTime < p.animationDuration then
      let animationTime := p.animationTime + dt
      let progress := min (animationTime / p.animationDuration) 1
      (animationTime, 0.8 + 0.2 * tm.sin (progress * tm.pi * 2))
    else (p.animationTime, 1)
  let pulseTime := p.pulseTime + dt
  let pulsePhase := 2 * tm.pi * p.pulseFrequency * pulseTime
  let pulseScale := 1 + p.pulseAmplitude * tm.sin pulsePhase
  { p with animationTime := prog.1
           pulseTime := pulseTime
           scale := prog.2 * pulseScale
           x := p.x + (p.targetX - p.x) * min (dt * 10) 1 }

/-- `Player.setPosition(touchX)` (player.js). -/
def Player.setPosition (canvasW touchX : ℚ) (p : Player) : Player :=
  let half := p.width / 2
  let clamped := max half (min (canvasW - half) touchX)
  { p with targetX := clamped - half }

/-- A transient score feedback marker (`GameScene.addScoreEffect`). -/
structure ScoreEffect where
  x : ℚ
  y : ℚ
  text : String
  life : ℚ
  maxLife : ℚ
  dy : ℚ
  alpha : ℚ
  color : String
  deriving DecidableEq, Repr

/-- `GameScene.addScoreEffect` (gameScene.js): the pushed record. -/
def mkScoreEffect (x y : ℚ) (text : String) : ScoreEffect :=
  { x := x, y := y, text := text, life := 0.8, maxLife := 0.8, dy := -60,
    alpha := 1,
    color := if text.startsWith "+" then "#2ecc71" else "#e74c3c" }

/-- `ExpandingSquareEffect` (effects.js constructor). -/
structure FxEffect where
  x : ℚ
  y : ℚ
  color : String
  life : ℚ
  maxLife : ℚ
  size : ℚ
  growth : ℚ
  lineWidth : ℚ
  deriving DecidableEq, Repr

/-- `new ExpandingSquareEffect(x, y, color)` (effects.js); the empty string
plays the role of a falsy colour argument. -/
def mkSquareFx (x y : ℚ) (color : String) : FxEffect :=
  { x := x, y := y, color := if color = "" then "#ffffff" else color,
    life := 0.4, maxLife := 0.4, size := 40, growth := 160, lineWidth := 3 }

/-- `ExpandingSquareEffect.update(dt)` (effects.js). -/
def FxEffect.update (dt : ℚ) (e : FxEffect) : FxEffect :=
  { e with life := e.life - dt, size := e.size + e.growth * dt }

/-- The backwards splice loop over `this.effects` in `GameScene.update`:
update each effect, drop the ones whose life expired.  Backwards splicing
preserves the relative order of the survivors, hence the `filterMap`. -/
def stepEffects (dt : ℚ) (l : List FxEffect) : List FxEffect :=
  l.filterMap fun e =>
    let e := e.update dt
    if e.life ≤ 0 then none else some e

/-- `GameScene.updateScoreEffects(dt)` (gameScene.js): backwards splice loop,
again order-preserving. -/
def stepScoreEffects (dt : ℚ) (l : List ScoreEffect) : List ScoreEffect :=
  l.filterMap fun e =>
    let life := e.life - dt
    if life ≤ 0 then none
    else some { e with life := life, y := e.y + e.dy * dt,
                       alpha := life / e.maxLife }

/-- The `GameScene` state (gameScene.js constructor).  `emitted` is a ghost
trace recording the pattern events handed to `spawnBlockOfType` by the spawn
loop, and `rngCount` is the ghost seed counter for the `Oracle`. -/
structure GameScene where
  player : Player
  blocks : List Block
  spawns : List NoteEvent
  spawnIndex : ℕ
  spawnInterval : ℚ
  spawnTimer : ℚ
  score : ℚ
  misses : ℕ
  timeElapsed : ℚ
  duration : ℚ
  gameOver : Bool
  scoreEffects : List ScoreEffect
  effects : List FxEffect
  audioStarted : Bool
  usePattern : Bool
  lanePositions : List ℚ
  canvasW : ℚ
  canvasH : ℚ
  emitted : List NoteEvent
  rngCount : ℕ
  deriving DecidableEq, Repr

/-- The `GameScene` constructor state for a song `{spawns, duration}` on a
`canvasW × canvasH` canvas. -/
def GameScene.init (spawns : List NoteEvent) (duration canvasW canvasH : ℚ) :
    GameScene :=
  { player := Player.init canvasW canvasH
    blocks := []
    spawns := spawns
    spawnIndex := 0
    spawnInterval := 0.8
    spawnTimer := 0
    score := 0
    misses := 0
    timeElapsed := 0
    duration := duration
    gameOver := false
    scoreEffects := []
    effects := []
    audioStarted := false
    usePattern := !spawns.isEmpty
    lanePositions :=
      (List.range numLanes).map fun i =>
        canvasW / (numLanes : ℚ) * (i : ℚ) + canvasW / (numLanes : ℚ) / 2
    canvasW := canvasW
    canvasH := canvasH
    emitted := []
    rngCount := 0 }

/-- `GameScene._spawnBlockWithTypeDef(typeDef, lane)` (gameScene.js): the
block that gets pushed.  A valid lane selects the lane centre; otherwise the
horizontal position is the oracle's `randomRange` draw.  `typeDef.speed || 200`
is the JS falsy-default. -/
def mkSpawnedBlock (orc : Oracle) (seed : ℕ) (lanePositions : List ℚ)
    (typeDef : BlockType) (lane : Option ℤ) : Block :=
  let size : ℚ := 40
  let x :=
    match lane with
    | some ln =>
        if 0 ≤ ln ∧ ln.toNat < lanePositions.length then
          lanePositions.getD ln.toNat 0
        else orc.x seed
    | none => orc.x seed
  let speed :=
    match typeDef.speed with
    | some v => if v = 0 then 200 else v
    | none => 200
  { x := x, y := -size, size := size, speed := speed, type := typeDef,
    rotation := 0, pulseTime := 0, alpha := 1 }

/-- `GameScene.spawnBlockOfType(typeIndex, lane)` (gameScene.js lines
335-339): an out-of-range type index makes the call return without spawning
anything; otherwise the block for `config.blockTypes[typeIndex]` is pushed. -/
def GameScene.spawnBlockOfType (orc : Oracle) (s : GameScene)
    (typeIndex : ℤ) (lane : Option ℤ) : GameScene :=
  if typeIndex < 0 ∨ (configBlockTypes.length : ℤ) ≤ typeIndex then s
  else
    { s with
      blocks := s.blocks ++
        [mkSpawnedBlock orc s.rngCount s.lanePositions
          (configBlockTypes.getD typeIndex.toNat defaultBlockType) lane]
      rngCount := s.rngCount + 1 }

/-- `GameScene.spawnBlockRandom()` (gameScene.js): random type and lane. -/
def GameScene.spawnBlockRandom (orc : Oracle) (s : GameScene) : GameScene :=
  let typeDef :=
    configBlockTypes.getD (orc.typeIdx s.rngCount % configBlockTypes.length)
      defaultBlockType
  let lane : ℤ := (orc.lane s.rngCount % numLanes : ℕ)
  { s with
    blocks := s.blocks ++
      [mkSpawnedBlock orc s.rngCount s.lanePositions typeDef (some lane)]
    rngCount := s.rngCount + 1 }

/-- The spawning part of `GameScene.update` (gameScene.js lines 230-244).
The `while (spawnIndex < spawns.length && timeElapsed >= spawns[spawnIndex].time)`
loop emits exactly the maximal due prefix of the remaining suffix, i.e. a
`takeWhile`; each emitted event is handed to `spawnBlockOfType` and advances
the cursor by one.  With an empty pattern a single random spawn fires when the
accumulated timer crosses the interval. -/
def GameScene.stepSpawns (orc : Oracle) (dt : ℚ) (s : GameScene) : GameScene :=
  if s.usePattern then
    let due := (s.spawns.drop s.spawnIndex).takeWhile
      fun ev => decide (ev.time ≤ s.timeElapsed)
    let s' := due.foldl
      (fun acc ev => acc.spawnBlockOfType orc ev.type (some ev.lane)) s
    { s' with spawnIndex := s.spawnIndex + due.length,
              emitted := s.emitted ++ due }
  else
    let timer := s.spawnTimer + dt
    if s.spawnInterval ≤ timer then
      let s' := s.spawnBlockRandom orc
      { s' with spawnTimer := timer - s.spawnInterval }
    else { s with spawnTimer := timer }

/-- Whether a (moved) block's rectangle intersects the player's rectangle —
the `rectIntersect` call of `GameScene.update` (lines 253-265). -/
def hitPlayer (b : Block) (p : Player) : Bool :=
  rectIntersect (b.x - b.size / 2) b.y b.size b.size p.x p.y p.width p.height

/-- Accumulator for the per-block collision/boundary loop of
`GameScene.update`. -/
structure RAcc where
  score : ℚ
  misses : ℕ
  blocks : List Block
  scoreEffects : List ScoreEffect
  effects : List FxEffect

/-- One iteration of the block loop of `GameScene.update` (lines 249-291):
move the block, score a hit, otherwise count a boundary miss
(`block.y - block.size / 2 > canvas.height`), otherwise keep the block.
Collecting survivors in order is equivalent to the source's collect-indices /
reverse-splice removal. -/
def resolveStep (tm : TrigModel) (dt canvasH : ℚ) (p : Player)
    (acc : RAcc) (b : Block) : RAcc :=
  let b := b.update tm dt
  if hitPlayer b p then
    let pts := match b.type.score with
      | some v => v
      | none => scoringHit
    { acc with
      score := acc.score + pts
      scoreEffects := acc.scoreEffects ++
        [mkScoreEffect b.x b.y ("+" ++ toString pts)]
      effects := acc.effects ++ [mkSquareFx b.x b.y b.type.color] }
  else if canvasH < b.y - b.size / 2 then
    let acc := { acc with misses := acc.misses + 1 }
    if 0 < scoringMiss then
      { acc with
        score := max 0 (acc.score - scoringMiss)
        scoreEffects := acc.scoreEffects ++
          [mkScoreEffect b.x (canvasH - 60) ("-" ++ toString scoringMiss)] }
    else acc
  else { acc with blocks := acc.blocks ++ [b] }

/-- The whole block loop plus removal of `GameScene.update`. -/
def GameScene.resolveBlocks (tm : TrigModel) (dt : ℚ) (s : GameScene) :
    GameScene :=
  let r := s.blocks.foldl (resolveStep tm dt s.canvasH s.player)
    ⟨s.score, s.misses, [], s.scoreEffects, s.effects⟩
  { s with score := r.score, misses := r.misses, blocks := r.blocks,
           scoreEffects := r.scoreEffects, effects := r.effects }

/-- `GameScene.endGame()` (gameScene.js lines 553-562): sets the flag once;
stopping the audio is an external effect. -/
def GameScene.endGame (s : GameScene) : GameScene :=
  if s.gameOver then s else { s with gameOver := true }

/-- The state of `GameScene.update` just before the block loop: audio flag,
clock tick, spawning, player update (lines 217-246). -/
def GameScene.preResolve (orc : Oracle) (tm : TrigModel) (dt : ℚ)
    (s : GameScene) : GameScene :=
  let s := { s with audioStarted := true }
  let s := { s with timeElapsed := s.timeElapsed + dt }
  let s := s.stepSpawns orc dt
  { s with player := s.player.update tm dt }

/-- The tail of `GameScene.update` after the block loop: end-of-song check,
score-effect update, visual-effect update (lines 292-306). -/
def GameScene.postResolve (dt : ℚ) (s : GameScene) : GameScene :=
  let s := if s.duration ≤ s.timeElapsed then s.endGame else s
  let s := { s with scoreEffects := stepScoreEffects dt s.scoreEffects }
  { s with effects := stepEffects dt s.effects }

/-- `GameScene.update(dt)` (gameScene.js lines 212-307). -/
def GameScene.update (orc : Oracle) (tm : TrigModel) (dt : ℚ)
    (s : GameScene) : GameScene :=
  if s.gameOver then s
  else ((s.preResolve orc tm dt).resolveBlocks tm dt).postResolve dt

/-- A whole frame sequence: fold `GameScene.update` over a list of frame
deltas. -/
def runUpdates (orc : Oracle) (tm : TrigModel) (dts : List ℚ)
    (s : GameScene) : GameScene :=
  dts.foldl (fun s dt => s.update orc tm dt) s

/-! ## Editor (editorScene.js, second copy in src/unnamed/part_001) -/

/-- An interaction bounding box (`this.bounds.*`). -/
structure Box where
  x : ℚ
  y : ℚ
  w : ℚ
  h : ℚ
  deriving DecidableEq, Repr

/-- `EditorScene._hitBox(box, x, y)` for a possibly-unset box (JS
`box && ...`). -/
def hitBoxO (b : Option Box) (x y : ℚ) : Bool :=
  match b with
  | none => false
  | some b =>
      decide (b.x ≤ x) && decide (x ≤ b.x + b.w) &&
      decide (b.y ≤ y) && decide (y ≤ b.y + b.h)

/-- First index of a box list hit by `(x, y)` — models the
`for (i...) if (_hitBox(boxes[i]))` scans over `noteBoxes` / `blockBoxes`. -/
def findIdxBox : List Box → ℚ → ℚ → Option ℕ
  | [], _, _ => none
  | b :: rest, x, y =>
      if hitBoxO (some b) x y then some 0
      else (findIdxBox rest x y).map (· + 1)

/-- `y` field of an optional box (only read when the box was hit, hence
present). -/
def boxY (b : Option Box) : ℚ :=
  match b with
  | none => 0
  | some b => b.y

/-- `h` field of an optional box. -/
def boxH (b : Option Box) : ℚ :=
  match b with
  | none => 0
  | some b => b.h

/-- A level descriptor as the editor sees it. -/
structure Level where
  title : String
  duration : ℚ
  spawns : List NoteEvent
  deriving DecidableEq, Repr

/-- The cached interaction boxes (`this.bounds`), written by `render`. -/
structure EBounds where
  scrollHandle : Option Box
  songPrev : Option Box
  songNext : Option Box
  delete : Option Box
  scrollUp : Option Box
  scrollDown : Option Box
  save : Option Box
  test : Option Box
  back : Option Box
  track : Option Box
  noteBoxes : List Box
  blockBoxes : List Box
  deriving DecidableEq, Repr

/-- The `EditorScene` state (editorScene.js constructor). -/
structure EditorScene where
  levels : List Level
  currentLevelIndex : ℕ
  pxPerSecond : ℚ
  scrollOffset : ℚ
  selectedBlockType : ℕ
  spawns : List NoteEvent
  outputText : String
  deleteMode : Bool
  bounds : EBounds
  dragging : Bool
  dragNoteIndex : Option ℕ
  scrollHandleDragging : Bool
  scrollHandleOffset : ℚ
  canvasW : ℚ
  canvasH : ℚ
  deriving DecidableEq, Repr

/-- `this.levels[this.currentLevelIndex]` (always in range in the source). -/
def EditorScene.curLevel (es : EditorScene) : Level :=
  es.levels.getD es.currentLevelIndex ⟨"", 0, []⟩

/-- `computeLayout`: `viewportX = marginX + scaleWidth = 20 + 60`. -/
def EditorScene.viewportX (_es : EditorScene) : ℚ := 80

/-- `computeLayout`: `viewportY = headerHeight = 200`. -/
def EditorScene.viewportY (_es : EditorScene) : ℚ := 200

/-- `computeLayout`: `width - marginX*2 - scaleWidth - scrollBarWidth - 10`. -/
def EditorScene.viewportWidth (es : EditorScene) : ℚ :=
  es.canvasW - 20 * 2 - 60 - 24 - 10

/-- `computeLayout`: `height - headerHeight - footerHeight`. -/
def EditorScene.viewportHeight (es : EditorScene) : ℚ :=
  es.canvasH - 200 - 80

/-- `computeLayout`: `level.duration * pxPerSecond`. -/
def EditorScene.timelineHeightPx (es : EditorScene) : ℚ :=
  es.curLevel.duration * es.pxPerSecond

/-- `maxScroll = Math.max(0, timelineHeightPx - viewportHeight)`. -/
def EditorScene.maxScroll (es : EditorScene) : ℚ :=
  max 0 (es.timelineHeightPx - es.viewportHeight)

/-- `EditorScene.computeLayout()`: all the layout quantities are pure
functions of the state (the defs above); its only state mutation is clamping
`scrollOffset` into `[0, maxScroll]`. -/
def EditorScene.computeLayout (es : EditorScene) : EditorScene :=
  { es with scrollOffset := max 0 (min es.scrollOffset es.maxScroll) }

/-- The pointer-down transform of editorScene.js line 1047:
`time = (scrollOffset + localY) / pxPerSecond`. -/
def editorTimeOfY (pxPerSecond scrollOffset localY : ℚ) : ℚ :=
  (scrollOffset + localY) / pxPerSecond

/-- The render placement transform of editorScene.js line 1313 (relative to
the track top): `localY = time * pxPerSecond - scrollOffset`. -/
def editorYOfTime (pxPerSecond scrollOffset time : ℚ) : ℚ :=
  time * pxPerSecond - scrollOffset

/-- `parseFloat(time.toFixed(2))`: rounding to two decimals (ties away from
zero for the nonnegative times the editor produces). -/
def round2 (t : ℚ) : ℚ := (round (t * 100) : ℤ) / 100

/-- The lane clamp of the track-tap and note-drag handlers:
`floor(localX / laneWidth)` clamped into `[0, laneCount - 1]`. -/
def clampLane (z : ℤ) (laneCount : ℕ) : ℤ :=
  if z < 0 then 0 else if (laneCount : ℤ) ≤ z then (laneCount : ℤ) - 1 else z

/-- Stable insertion of a note after every entry with `time ≤` its own:
helper for `sortByTime`. -/
def insertNote (e : NoteEvent) : List NoteEvent → List NoteEvent
  | [] => [e]
  | a :: l => if a.time ≤ e.time then a :: insertNote e l else e :: a :: l

/-- `array.sort((a, b) => a.time - b.time)`: a stable sort by time (modern JS
engines implement a stable sort; any two stable sorts on the same key
agree). -/
def sortByTime (l : List NoteEvent) : List NoteEvent :=
  l.foldl (fun acc e => insertNote e acc) []

/-- The delete scan of the track-tap handler (editorScene.js lines
1062-1068): walk the spawns in order; at the first entry matching the
predicate, splice it out and return the shortened list; `none` when no entry
matches (the loop falls through). -/
def removeMatch (p : NoteEvent → Bool) : List NoteEvent → Option (List NoteEvent)
  | [] => none
  | a :: l => if p a then some l else (removeMatch p l).map (a :: ·)

/-- The tapped song time of a track tap at absolute `y`:
`(scrollOffset + (y - viewportY)) / pxPerSecond` (editorScene.js lines
1046-1047). -/
def tapTime (es : EditorScene) (y : ℚ) : ℚ :=
  editorTimeOfY es.pxPerSecond es.scrollOffset (y - es.viewportY)

/-- The tapped lane of a track tap at absolute `x`:
`floor((x - viewportX) / laneWidth)` clamped into `[0, numLanes - 1]`
(editorScene.js lines 1053-1058). -/
def tapLane (es : EditorScene) (x : ℚ) : ℤ :=
  clampLane ⌊(x - es.viewportX) / (es.viewportWidth / (numLanes : ℚ))⌋ numLanes

/-- The track-area branch of `EditorScene.onTouchStart` (editorScene.js lines
1045-1078): compute tapped time and lane, reject out-of-range times,
toggle-delete a nearby note in the same lane, otherwise (when not in delete
mode) insert a new note at the 2-decimal-rounded time and re-sort. -/
def EditorScene.trackTap (x y : ℚ) (es : EditorScene) : EditorScene :=
  let time := tapTime es y
  if time < 0 ∨ es.curLevel.duration < time then es
  else
    let lane := tapLane es x
    let thresholdTime := 10 / es.pxPerSecond
    match removeMatch
      (fun sp => decide (sp.lane = lane) &&
        decide (|sp.time - time| ≤ thresholdTime)) es.spawns with
    | some l => { es with spawns := l }
    | none =>
        if es.deleteMode then es
        else
          { es with spawns := sortByTime (es.spawns ++
              [⟨round2 time, (es.selectedBlockType : ℤ), lane⟩]) }

/-- `EditorScene.updateLevelData()` (editorScene.js lines 802-823): take the
level's built-in spawns, override them with the persisted pattern when the
storage collaborator has one for the level's title, sort, reset scroll and
output. -/
def EditorScene.updateLevelData (storage : String → Option (List NoteEvent))
    (es : EditorScene) : EditorScene :=
  let lvl := es.curLevel
  let sp := match storage ("spawns_" ++ lvl.title) with
    | some saved => saved
    | none => lvl.spawns
  { es with spawns := sortByTime sp, scrollOffset := 0, outputText := "" }

/-- `EditorScene.prevSong()`. -/
def EditorScene.prevSong (storage : String → Option (List NoteEvent))
    (es : EditorScene) : EditorScene :=
  ({ es with currentLevelIndex :=
      (es.currentLevelIndex + es.levels.length - 1) % es.levels.length
   } : EditorScene).updateLevelData storage

/-- `EditorScene.nextSong()`. -/
def EditorScene.nextSong (storage : String → Option (List NoteEvent))
    (es : EditorScene) : EditorScene :=
  ({ es with currentLevelIndex :=
      (es.currentLevelIndex + 1) % es.levels.length
   } : EditorScene).updateLevelData storage

/-- `EditorScene.scrollUp()`. -/
def EditorScene.scrollUpStep (es : EditorScene) : EditorScene :=
  { es with scrollOffset := max 0 (es.scrollOffset - es.viewportHeight / 2) }

/-- `EditorScene.scrollDown()`. -/
def EditorScene.scrollDownStep (es : EditorScene) : EditorScene :=
  { es with scrollOffset := min es.maxScroll (es.scrollOffset + es.viewportHeight / 2) }

/-- Abstract rendering of `JSON.stringify(this.spawns, null, 2)`; the exact
text is never load-bearing. -/
def spawnsJson (l : List NoteEvent) : String :=
  toString (l.map fun n => (n.time, n.type, n.lane))

/-- `EditorScene.saveSpawns()` (editorScene.js lines 896-939): sort, publish
the sorted pattern back into the level entry, set the feedback text; the file
system, storage and clipboard writes are external effects. -/
def EditorScene.saveSpawns (es : EditorScene) : EditorScene :=
  let sorted := sortByTime es.spawns
  let lvl := es.curLevel
  { es with spawns := sorted,
            levels := es.levels.set es.currentLevelIndex
              { lvl with spawns := sorted },
            outputText := spawnsJson sorted }

/-- `EditorScene.onTouchStart(e)` (editorScene.js lines 973-1079): the
branch cascade in source order. -/
def EditorScene.onTouchStart (storage : String → Option (List NoteEvent))
    (x y : ℚ) (es : EditorScene) : EditorScene :=
  let es := es.computeLayout
  if hitBoxO es.bounds.scrollHandle x y then
    { es with scrollHandleDragging := true,
              scrollHandleOffset := y - boxY es.bounds.scrollHandle }
  else match findIdxBox es.bounds.noteBoxes x y with
  | some i => { es with dragging := true, dragNoteIndex := some i }
  | none =>
    if hitBoxO es.bounds.songPrev x y then es.prevSong storage
    else if hitBoxO es.bounds.songNext x y then es.nextSong storage
    else match findIdxBox es.bounds.blockBoxes x y with
    | some i => { es with selectedBlockType := i }
    | none =>
      if hitBoxO es.bounds.delete x y then
        { es with deleteMode := !es.deleteMode }
      else if hitBoxO es.bounds.scrollUp x y then es.scrollUpStep
      else if hitBoxO es.bounds.scrollDown x y then es.scrollDownStep
      else if hitBoxO es.bounds.save x y then es.saveSpawns
      else if hitBoxO es.bounds.test x y then es
      else if hitBoxO es.bounds.back x y then es
      else if hitBoxO es.bounds.track x y then es.trackTap x y
      else es

/-- `EditorScene.onTouchMove(e)` (editorScene.js lines 1085-1133):
scroll-handle drag takes priority; then the note drag, which silently
returns when `spawns[dragNoteIndex]` is not an entry of the current
pattern. -/
def EditorScene.onTouchMove (x y : ℚ) (es : EditorScene) : EditorScene :=
  if es.scrollHandleDragging then
    let es := es.computeLayout
    let trackY := es.viewportY
    let trackH := es.viewportHeight
    let arrowH : ℚ := 24
    let maxScroll := es.maxScroll
    if 0 < maxScroll then
      let handleY := y - es.scrollHandleOffset
      let handleHeight := boxH es.bounds.scrollHandle
      let minY := trackY + arrowH
      let maxY := trackY + trackH - arrowH - handleHeight
      let handleY := max minY (min maxY handleY)
      let ratio := (handleY - minY) / (maxY - minY)
      { es with scrollOffset := ratio * maxScroll }
    else es
  else if !es.dragging then es
  else
    let es := es.computeLayout
    match es.dragNoteIndex with
    | none => es
    | some i =>
      match es.spawns.get? i with
      | none => es
      | some note =>
        let localY := y - es.viewportY
        let newTime := editorTimeOfY es.pxPerSecond es.scrollOffset localY
        let newTime := max 0 (min es.curLevel.duration newTime)
        let laneWidth := es.viewportWidth / (numLanes : ℚ)
        let lane := clampLane ⌊(x - es.viewportX) / laneWidth⌋ numLanes
        { es with spawns :=
            es.spawns.set i { note with time := round2 newTime, lane := lane } }

/-- `EditorScene.onTouchEnd(e)` (editorScene.js lines 1139-1150). -/
def EditorScene.onTouchEnd (es : EditorScene) : EditorScene :=
  if es.scrollHandleDragging then { es with scrollHandleDragging := false }
  else if es.dragging then
    { es with dragging := false, dragNoteIndex := none,
              spawns := sortByTime es.spawns }
  else es

/-- A pointer event as delivered by the host (`wx.onTouchStart` and
friends). -/
inductive EEvent where
  | down (x y : ℚ)
  | move (x y : ℚ)
  | up
  deriving DecidableEq, Repr

/-- Whether a pointer event is a pointer-down. -/
def EEvent.isDown : EEvent → Bool
  | .down _ _ => true
  | _ => false

/-- Dispatch of one pointer event to the editor. -/
def editorStep (storage : String → Option (List NoteEvent))
    (es : EditorScene) : EEvent → EditorScene
  | .down x y => es.onTouchStart storage x y
  | .move x y => es.onTouchMove x y
  | .up => es.onTouchEnd

/-- Process a whole pointer-event sequence. -/
def processEvents (storage : String → Option (List NoteEvent))
    (evs : List EEvent) (es : EditorScene) : EditorScene :=
  evs.foldl (editorStep storage) es

/-- Exactly-one-of-three for the editor drag state machine: `Idle`,
`DraggingNote` and `DraggingScrollHandle` are mutually exclusive iff the two
drag flags are never set together. -/
def dragExclusive (es : EditorScene) : Prop :=
  ¬(es.dragging = true ∧ es.scrollHandleDragging = true)

/-- The `Idle` drag state: no drag flag set. -/
def editorIdle (es : EditorScene) : Prop :=
  es.dragging = false ∧ es.scrollHandleDragging = false

/-! ## Entry-scale curve over the reals (player.js line 60) -/

/-- The entry-animation scale curve of `Player.update` as a function of the
progress fraction: `0.8 + 0.2 * Math.sin(progress * Math.PI * 2)`, with the
real sine. -/
noncomputable def entryScaleCurve (progress : ℝ) : ℝ :=
  0.8 + 0.2 * Real.sin (progress * Real.pi * 2)

/-! ## Generic list lemmas -/

/-- A `takeWhile` is the `take` of its own length. -/
theorem takeWhile_eq_take_length (p : α → Bool) :
    ∀ l : List α, l.takeWhile p = l.take (l.takeWhile p).length := by
  intro l
  induction l with
  | nil => rfl
  | cons a l ih =>
      by_cases h : p a
      · simp [List.takeWhile_cons, h, List.take_succ_cons]
        exact ih
      · simp [List.takeWhile_cons, h]

/-- The length of a `takeWhile` is at most the list's length. -/
theorem takeWhile_length_le (p : α → Bool) :
    ∀ l : List α, (l.takeWhile p).length ≤ l.length := by
  intro l
  induction l with
  | nil => simp
  | cons a l ih =>
      by_cases h : p a
      · simpa [List.takeWhile_cons, h] using ih
      · simp [List.takeWhile_cons, h]

/-- The element right after a proper `takeWhile` fails the predicate. -/
theorem takeWhile_stop (p : α → Bool) :
    ∀ (l : List α) (h : (l.takeWhile p).length < l.length),
      p (l.get ⟨(l.takeWhile p).length, h⟩) = false := by
  intro l
  induction l with
  | nil => intro h; simp at h
  | cons a l ih =>
      intro h
      by_cases hp : p a
      · have := ih (by simpa [List.takeWhile_cons, hp] using h)
        simpa [List.takeWhile_cons, hp] using this
      · simp [List.takeWhile_cons, hp]

/-- An in-range `getD` is a member of the list. -/
theorem getD_mem_of_lt {l : List α} {i : ℕ} (d : α) (h : i < l.length) :
    l.getD i d ∈ l := by
  rw [List.getD_eq_getElem l d h]
  exact List.getElem_mem h

/-! ## Sortedness of patterns -/

/-- A pattern is sorted ascending by `time` (ties allowed). -/
def sortedByTime (l : List NoteEvent) : Prop :=
  l.Pairwise fun a b => a.time ≤ b.time

/-- On a time-sorted list, filtering by `time ≤ b` equals taking the maximal
due prefix. -/
theorem sorted_filter_eq_takeWhile (b : ℚ) :
    ∀ l : List NoteEvent, sortedByTime l →
      l.filter (fun ev => decide (ev.time ≤ b)) =
        l.takeWhile (fun ev => decide (ev.time ≤ b)) := by
  intro l
  induction l with
  | nil => intro _; rfl
  | cons a l ih =>
      intro hs
      rw [sortedByTime, List.pairwise_cons] at hs
      by_cases h : a.time ≤ b
      · simp only [List.filter_cons, List.takeWhile_cons, h, decide_eq_true_eq,
          if_pos]
        exact congrArg (a :: ·) (ih hs.2)
      · simp only [List.filter_cons, List.takeWhile_cons, h, decide_eq_true_eq,
          if_neg, if_false]
        refine List.filter_eq_nil_iff.mpr ?_
        intro ev hev
        have : a.time ≤ ev.time := hs.1 ev hev
        simp only [decide_eq_true_eq]
        intro hle
        exact h (le_trans this hle)

/-- The next pending event (if any) is strictly later than `t`. -/
def pendingAfter (l : List NoteEvent) (k : ℕ) (t : ℚ) : Prop :=
  ∀ ev, l.get? k = some ev → t < ev.time

/-- Membership in a due-`takeWhile` gives the due bound. -/
theorem mem_takeWhile_time {t : ℚ} {ev : NoteEvent} :
    ∀ {l : List NoteEvent},
      ev ∈ l.takeWhile (fun e => decide (e.time ≤ t)) → ev.time ≤ t := by
  intro l
  induction l with
  | nil => intro h; simp at h
  | cons a l ih =>
      intro h
      by_cases hp : a.time ≤ t
      · rw [List.takeWhile_cons] at h
        simp only [hp, decide_eq_true_eq, if_pos] at h
        rcases List.mem_cons.mp h with rfl | h
        · exact hp
        · exact ih h
      · rw [List.takeWhile_cons] at h
        simp [hp] at h

/-- With every taken event due and the next pending event overdue, the taken
prefix is exactly the filter of due events. -/
theorem take_eq_filter_of_frontier {l : List NoteEvent} {k : ℕ} {t : ℚ}
    (hsort : sortedByTime l) (hk : k ≤ l.length)
    (hall : ∀ ev ∈ l.take k, ev.time ≤ t) (hpend : pendingAfter l k t) :
    l.take k = l.filter fun ev => decide (ev.time ≤ t) := by
  conv_rhs => rw [← List.take_append_drop k l]
  rw [List.filter_append]
  have h1 : (l.take k).filter (fun ev => decide (ev.time ≤ t)) = l.take k :=
    List.filter_eq_self.mpr fun ev hev => by simpa using hall ev hev
  have h2 : (l.drop k).filter (fun ev => decide (ev.time ≤ t)) = [] := by
    refine List.filter_eq_nil_iff.mpr ?_
    intro ev hev
    obtain ⟨j, hj⟩ := List.mem_iff_get.mp hev
    have hkj : k + j.1 < l.length := by
      have := j.2
      simp only [List.length_drop] at this
      omega
    have hget : (l.drop k).get j = l.get ⟨k + j.1, hkj⟩ := by
      simp only [List.get_eq_getElem]
      exact List.getElem_drop l
    have hk' : k < l.length := lt_of_le_of_lt (Nat.le_add_right k j.1) hkj
    have hbase : t < (l.get ⟨k, hk'⟩).time :=
      hpend (l.get ⟨k, hk'⟩) (List.get?_eq_get hk')
    have hmono : (l.get ⟨k, hk'⟩).time ≤ (l.get ⟨k + j.1, hkj⟩).time := by
      rcases Nat.eq_zero_or_pos j.1 with hz | hpos
      · simp [hz]
      · exact (List.pairwise_iff_get.mp hsort ⟨k, hk'⟩ ⟨k + j.1, hkj⟩
          (by rw [Fin.mk_lt_mk]; omega))
    have : t < ev.time := by
      rw [← hj, hget]
      exact lt_of_lt_of_le hbase hmono
    simp only [decide_eq_true_eq]
    exact fun hle => absurd (lt_of_lt_of_le this hle) (lt_irrefl t)
  rw [h1, h2, List.append_nil]

/-! ## Frame lemmas for the game scene -/

/-- `spawnBlockOfType` only appends to `blocks` and bumps the draw
counter. -/
theorem spawnBlockOfType_eq (orc : Oracle) (s : GameScene) (t : ℤ)
    (ln : Option ℤ) :
    ∃ bs k, s.spawnBlockOfType orc t ln =
      { s with blocks := s.blocks ++ bs, rngCount := k } := by
  unfold GameScene.spawnBlockOfType
  split
  · exact ⟨[], s.rngCount, by simp⟩
  · exact ⟨_, _, rfl⟩

/-- The spawn fold of the pattern branch only appends to `blocks` and bumps
the draw counter. -/
theorem foldSpawn_eq (orc : Oracle) (due : List NoteEvent) :
    ∀ s : GameScene, ∃ bs k,
      due.foldl (fun acc ev => acc.spawnBlockOfType orc ev.type (some ev.lane))
        s = { s with blocks := s.blocks ++ bs, rngCount := k } := by
  induction due with
  | nil => intro s; exact ⟨[], s.rngCount, by simp⟩
  | cons ev due ih =>
      intro s
      obtain ⟨bs₀, k₀, h₀⟩ := spawnBlockOfType_eq orc s ev.type (some ev.lane)
      obtain ⟨bs, k, h⟩ := ih (s.spawnBlockOfType orc ev.type (some ev.lane))
      refine ⟨bs₀ ++ bs, k, ?_⟩
      rw [List.foldl_cons, h, h₀]
      simp

/-- Effect of `stepSpawns` with a pattern: the cursor advances over the due
`takeWhile` prefix, the trace extends by it, everything else but `blocks`,
`spawnTimer` and the draw counter is untouched. -/
theorem stepSpawns_pattern (orc : Oracle) (dt : ℚ) (s : GameScene)
    (h : s.usePattern = true) :
    (s.stepSpawns orc dt).spawnIndex = s.spawnIndex +
        ((s.spawns.drop s.spawnIndex).takeWhile
          fun ev => decide (ev.time ≤ s.timeElapsed)).length ∧
    (s.stepSpawns orc dt).emitted = s.emitted ++
        ((s.spawns.drop s.spawnIndex).takeWhile
          fun ev => decide (ev.time ≤ s.timeElapsed)) ∧
    (s.stepSpawns orc dt).timeElapsed = s.timeElapsed ∧
    (s.stepSpawns orc dt).spawns = s.spawns ∧
    (s.stepSpawns orc dt).usePattern = s.usePattern ∧
    (s.stepSpawns orc dt).duration = s.duration ∧
    (s.stepSpawns orc dt).gameOver = s.gameOver ∧
    (s.stepSpawns orc dt).player = s.player ∧
    (s.stepSpawns orc dt).canvasH = s.canvasH ∧
    (s.stepSpawns orc dt).score = s.score ∧
    (s.stepSpawns orc dt).misses = s.misses := by
  unfold GameScene.stepSpawns
  rw [h]
  obtain ⟨bs, k, hfold⟩ := foldSpawn_eq orc
    ((s.spawns.drop s.spawnIndex).takeWhile
      fun ev => decide (ev.time ≤ s.timeElapsed)) s
  simp [hfold, h]

/-- Effect of `stepSpawns` without a pattern: cursor, trace, clock and flags
untouched. -/
theorem stepSpawns_noPattern (orc : Oracle) (dt : ℚ) (s : GameScene)
    (h : s.usePattern = false) :
    (s.stepSpawns orc dt).spawnIndex = s.spawnIndex ∧
    (s.stepSpawns orc dt).emitted = s.emitted ∧
    (s.stepSpawns orc dt).timeElapsed = s.timeElapsed ∧
    (s.stepSpawns orc dt).spawns = s.spawns ∧
    (s.stepSpawns orc dt).usePattern = s.usePattern ∧
    (s.stepSpawns orc dt).duration = s.duration ∧
    (s.stepSpawns orc dt).gameOver = s.gameOver ∧
    (s.stepSpawns orc dt).player = s.player ∧
    (s.stepSpawns orc dt).canvasH = s.canvasH ∧
    (s.stepSpawns orc dt).score = s.score ∧
    (s.stepSpawns orc dt).misses = s.misses := by
  unfold GameScene.stepSpawns
  rw [h]
  simp only [Bool.false_eq_true, if_false]
  split <;> simp [GameScene.spawnBlockRandom, h]

/-- `resolveBlocks` only touches score, misses, blocks and the two effect
lists. -/
theorem resolveBlocks_frame (tm : TrigModel) (dt : ℚ) (s : GameScene) :
    (s.resolveBlocks tm dt).spawnIndex = s.spawnIndex ∧
    (s.resolveBlocks tm dt).emitted = s.emitted ∧
    (s.resolveBlocks tm dt).timeElapsed = s.timeElapsed ∧
    (s.resolveBlocks tm dt).spawns = s.spawns ∧
    (s.resolveBlocks tm dt).usePattern = s.usePattern ∧
    (s.resolveBlocks tm dt).duration = s.duration ∧
    (s.resolveBlocks tm dt).gameOver = s.gameOver := by
  exact ⟨rfl, rfl, rfl, rfl, rfl, rfl, rfl⟩

/-- `postResolve` only touches the game-over flag and the effect lists. -/
theorem postResolve_frame (dt : ℚ) (s : GameScene) :
    (s.postResolve dt).spawnIndex = s.spawnIndex ∧
    (s.postResolve dt).emitted = s.emitted ∧
    (s.postResolve dt).timeElapsed = s.timeElapsed ∧
    (s.postResolve dt).spawns = s.spawns ∧
    (s.postResolve dt).usePattern = s.usePattern ∧
    (s.postResolve dt).duration = s.duration ∧
    (s.postResolve dt).score = s.score ∧
    (s.postResolve dt).misses = s.misses ∧
    (s.postResolve dt).blocks = s.blocks := by
  unfold GameScene.postResolve GameScene.endGame
  split
  · split <;> exact ⟨rfl, rfl, rfl, rfl, rfl, rfl, rfl, rfl, rfl⟩
  · exact ⟨rfl, rfl, rfl, rfl, rfl, rfl, rfl, rfl, rfl⟩

/-- The game-over flag after `postResolve`: set iff it was set or the song
duration has been reached. -/
theorem postResolve_gameOver (dt : ℚ) (s : GameScene) :
    (s.postResolve dt).gameOver =
      (s.gameOver || decide (s.duration ≤ s.timeElapsed)) := by
  unfold GameScene.postResolve GameScene.endGame
  by_cases h : s.duration ≤ s.timeElapsed
  · simp only [h, if_pos, decide_eq_true_eq]
    split <;> simp_all
  · simp only [h, if_neg, decide_eq_false_iff_not]
    simp [h]

/-! ## The spawn-scheduler invariant (claim C1) -/

/-- The scheduler invariant after total announced time `t0`: the pattern and
flags are the constructor's, the ghost trace is exactly the emitted prefix,
every emitted event was due, and the clock equals the accumulated time until
the game-over freeze (after which it is dominated by it). -/
def specInv (l : List NoteEvent) (dur t0 : ℚ) (s : GameScene) : Prop :=
  s.spawns = l ∧ s.duration = dur ∧ s.usePattern = !l.isEmpty ∧
  s.spawnIndex ≤ l.length ∧
  s.emitted = l.take s.spawnIndex ∧
  (∀ ev ∈ l.take s.spawnIndex, ev.time ≤ s.timeElapsed) ∧
  s.timeElapsed ≤ t0 ∧
  (s.gameOver = false → s.timeElapsed = t0) ∧
  (s.gameOver = true → dur ≤ s.timeElapsed)

/-- The clock tick at the top of `GameScene.update` (audio flag plus
`timeElapsed += dt`). -/
def tick (dt : ℚ) (s : GameScene) : GameScene :=
  { s with audioStarted := true, timeElapsed := s.timeElapsed + dt }

/-- The due prefix of the remaining pattern suffix at clock value `t`. -/
def dueList (s : GameScene) (t : ℚ) : List NoteEvent :=
  (s.spawns.drop s.spawnIndex).takeWhile fun ev => decide (ev.time ≤ t)

/-- Projections of one non-game-over `GameScene.update` step: the clock
advances by `dt`, the pattern and flags are untouched, the game-over flag is
set exactly when the duration is reached, and with a pattern the cursor and
trace advance over the due `takeWhile` prefix. -/
theorem update_proj (orc : Oracle) (tm : TrigModel) (dt : ℚ) (s : GameScene)
    (hgo : s.gameOver = false) :
    (s.update orc tm dt).spawns = s.spawns ∧
    (s.update orc tm dt).duration = s.duration ∧
    (s.update orc tm dt).usePattern = s.usePattern ∧
    (s.update orc tm dt).timeElapsed = s.timeElapsed + dt ∧
    (s.update orc tm dt).gameOver =
      decide (s.duration ≤ s.timeElapsed + dt) ∧
    (s.usePattern = true →
      (s.update orc tm dt).spawnIndex =
        s.spawnIndex + (dueList s (s.timeElapsed + dt)).length ∧
      (s.update orc tm dt).emitted =
        s.emitted ++ dueList s (s.timeElapsed + dt)) ∧
    (s.usePattern = false →
      (s.update orc tm dt).spawnIndex = s.spawnIndex ∧
      (s.update orc tm dt).emitted = s.emitted) := by
  have hu : s.update orc tm dt =
      ((s.preResolve orc tm dt).resolveBlocks tm dt).postResolve dt := by
    simp [GameScene.update, hgo]
  obtain ⟨hr1, hr2, hr3, hr4, hr5, hr6, hr7⟩ :=
    resolveBlocks_frame tm dt (s.preResolve orc tm dt)
  obtain ⟨hp1, hp2, hp3, hp4, hp5, hp6, _, _, _⟩ :=
    postResolve_frame dt ((s.preResolve orc tm dt).resolveBlocks tm dt)
  have hpgo :=
    postResolve_gameOver dt ((s.preResolve orc tm dt).resolveBlocks tm dt)
  -- the mid-state facts, stated for `preResolve` by definitional transport
  by_cases hP : s.usePattern = true
  · obtain ⟨h1, h2, h3, h4, h5, h6, h7, _, _, _, _⟩ :=
      stepSpawns_pattern orc dt (tick dt s) hP
    have m_k : (s.preResolve orc tm dt).spawnIndex =
        s.spawnIndex + (dueList s (s.timeElapsed + dt)).length := h1
    have m_em : (s.preResolve orc tm dt).emitted =
        s.emitted ++ dueList s (s.timeElapsed + dt) := h2
    have m_t : (s.preResolve orc tm dt).timeElapsed = s.timeElapsed + dt := h3
    have m_sp : (s.preResolve orc tm dt).spawns = s.spawns := h4
    have m_up : (s.preResolve orc tm dt).usePattern = s.usePattern := h5
    have m_dur : (s.preResolve orc tm dt).duration = s.duration := h6
    have m_go : (s.preResolve orc tm dt).gameOver = s.gameOver := h7
    refine ⟨?_, ?_, ?_, ?_, ?_, ?_, ?_⟩
    · rw [hu, hp4, hr4, m_sp]
    · rw [hu, hp6, hr6, m_dur]
    · rw [hu, hp5, hr5, m_up]
    · rw [hu, hp3, hr3, m_t]
    · rw [hu, hpgo, hr7, m_go, hgo, hr6, m_dur, hr3, m_t, Bool.false_or]
    · intro _
      exact ⟨by rw [hu, hp1, hr1, m_k], by rw [hu, hp2, hr2, m_em]⟩
    · intro hcon
      rw [hP] at hcon
      cases hcon
  · have hPf : s.usePattern = false := by
      cases h : s.usePattern
      · rfl
      · exact absurd h hP
    obtain ⟨h1, h2, h3, h4, h5, h6, h7, _, _, _, _⟩ :=
      stepSpawns_noPattern orc dt (tick dt s) hPf
    have m_k : (s.preResolve orc tm dt).spawnIndex = s.spawnIndex := h1
    have m_em : (s.preResolve orc tm dt).emitted = s.emitted := h2
    have m_t : (s.preResolve orc tm dt).timeElapsed = s.timeElapsed + dt := h3
    have m_sp : (s.preResolve orc tm dt).spawns = s.spawns := h4
    have m_up : (s.preResolve orc tm dt).usePattern = s.usePattern := h5
    have m_dur : (s.preResolve orc tm dt).duration = s.duration := h6
    have m_go : (s.preResolve orc tm dt).gameOver = s.gameOver := h7
    refine ⟨?_, ?_, ?_, ?_, ?_, ?_, ?_⟩
    · rw [hu, hp4, hr4, m_sp]
    · rw [hu, hp6, hr6, m_dur]
    · rw [hu, hp5, hr5, m_up]
    · rw [hu, hp3, hr3, m_t]
    · rw [hu, hpgo, hr7, m_go, hgo, hr6, m_dur, hr3, m_t, Bool.false_or]
    · intro hcon
      rw [hPf] at hcon
      cases hcon
    · intro _
      exact ⟨by rw [hu, hp1, hr1, m_k], by rw [hu, hp2, hr2, m_em]⟩

/-- One `GameScene.update` step preserves the scheduler invariant and
(re-)establishes the frontier property. -/
theorem specInv_step (orc : Oracle) (tm : TrigModel)
    {l : List NoteEvent} {dur t0 dt : ℚ} {s : GameScene}
    (hsort : sortedByTime l) (hdt : 0 ≤ dt)
    (hInv : specInv l dur t0 s)
    (hFront : (s.spawnIndex = 0 ∧ s.timeElapsed = 0 ∧ s.gameOver = false) ∨
      pendingAfter l s.spawnIndex s.timeElapsed) :
    specInv l dur (t0 + dt) (s.update orc tm dt) ∧
    pendingAfter l (s.update orc tm dt).spawnIndex
      (s.update orc tm dt).timeElapsed := by
  obtain ⟨hsp, hdur, hup, hk, hem, hall, hle, hgf, hgt⟩ := hInv
  by_cases hgo : s.gameOver = true
  · have hu : s.update orc tm dt = s := by
      simp [GameScene.update, hgo]
    have hpend : pendingAfter l s.spawnIndex s.timeElapsed := by
      rcases hFront with ⟨_, _, hfalse⟩ | hp
      · rw [hgo] at hfalse; cases hfalse
      · exact hp
    rw [hu]
    exact ⟨⟨hsp, hdur, hup, hk, hem, hall,
      le_trans hle (by linarith),
      fun hf => absurd (hf.symm.trans hgo) Bool.false_ne_true,
      fun _ => hgt hgo⟩, hpend⟩
  · have hgo' : s.gameOver = false := by
      cases h : s.gameOver
      · rfl
      · exact absurd h hgo
    have ht0 : s.timeElapsed = t0 := hgf hgo'
    obtain ⟨u_sp, u_dur, u_up, u_t, u_go, u_pat, u_nopat⟩ :=
      update_proj orc tm dt s hgo'
    by_cases hP : s.usePattern = true
    · obtain ⟨u_k, u_em⟩ := u_pat hP
      have hD : dueList s (s.timeElapsed + dt) =
          (l.drop s.spawnIndex).takeWhile
            (fun ev => decide (ev.time ≤ s.timeElapsed + dt)) := by
        rw [dueList, hsp]
      have hDlen : (dueList s (s.timeElapsed + dt)).length ≤
          l.length - s.spawnIndex := by
        rw [hD]
        have := takeWhile_length_le
          (fun ev => decide (ev.time ≤ s.timeElapsed + dt))
          (l.drop s.spawnIndex)
        simpa [List.length_drop] using this
      have hDtake : dueList s (s.timeElapsed + dt) =
          (l.drop s.spawnIndex).take (dueList s (s.timeElapsed + dt)).length := by
        conv_lhs => rw [hD, takeWhile_eq_take_length]
        rw [hD]
      constructor
      · refine ⟨?_, ?_, ?_, ?_, ?_, ?_, ?_, ?_, ?_⟩
        · rw [u_sp, hsp]
        · rw [u_dur, hdur]
        · rw [u_up, hup]
        · rw [u_k]; omega
        · rw [u_em, u_k, hem, List.take_add, ← hDtake]
        · intro ev hev
          rw [u_t]
          rw [u_k, List.take_add] at hev
          rcases List.mem_append.mp hev with hin | hin
          · exact le_trans (hall ev hin) (by linarith)
          · have hinD : ev ∈ dueList s (s.timeElapsed + dt) := by
              rw [hDtake]; exact hin
            rw [hD] at hinD
            exact mem_takeWhile_time hinD
        · rw [u_t, ht0]
        · intro _
          rw [u_t, ht0]
        · intro hgof
          rw [u_go] at hgof
          have hgle := of_decide_eq_true hgof
          rw [u_t]
          rw [hdur] at hgle
          exact hgle
      · intro ev hev
        rw [u_k] at hev
        rw [u_t]
        have hlen_eq : (dueList s (s.timeElapsed + dt)).length =
            ((l.drop s.spawnIndex).takeWhile
              (fun e => decide (e.time ≤ s.timeElapsed + dt))).length := by
          rw [hD]
        rw [hlen_eq] at hev
        obtain ⟨hkilen, hgeteq⟩ := List.get?_eq_some.mp hev
        have hstoplen' : ((l.drop s.spawnIndex).takeWhile
            (fun e => decide (e.time ≤ s.timeElapsed + dt))).length <
            (l.drop s.spawnIndex).length := by
          rw [List.length_drop]; omega
        have hstop := takeWhile_stop
          (fun e => decide (e.time ≤ s.timeElapsed + dt))
          (l.drop s.spawnIndex) hstoplen'
        have hgeteq2 : (l.drop s.spawnIndex).get
            ⟨((l.drop s.spawnIndex).takeWhile
              (fun e => decide (e.time ≤ s.timeElapsed + dt))).length,
              hstoplen'⟩ =
            l.get ⟨s.spawnIndex + ((l.drop s.spawnIndex).takeWhile
              (fun e => decide (e.time ≤ s.timeElapsed + dt))).length,
              hkilen⟩ := by
          simp only [List.get_eq_getElem]
          exact List.getElem_drop l
        rw [decide_eq_false_iff_not] at hstop
        rw [hgeteq2, hgeteq] at hstop
        exact lt_of_not_le hstop
    · have hPf : s.usePattern = false := by
        cases h : s.usePattern
        · rfl
        · exact absurd h hP
      have hlnil : l = [] := by
        rw [hPf] at hup
        cases l with
        | nil => rfl
        | cons a l => simp at hup
      obtain ⟨u_k, u_em⟩ := u_nopat hPf
      constructor
      · refine ⟨?_, ?_, ?_, ?_, ?_, ?_, ?_, ?_, ?_⟩
        · rw [u_sp, hsp]
        · rw [u_dur, hdur]
        · rw [u_up, hup]
        · rw [u_k]; exact hk
        · rw [u_em, u_k, hem]
        · intro ev hev
          rw [u_t]
          rw [u_k] at hev
          exact le_trans (hall ev hev) (by linarith)
        · rw [u_t, ht0]
        · intro _
          rw [u_t, ht0]
        · intro hgof
          rw [u_go] at hgof
          have hgle := of_decide_eq_true hgof
          rw [u_t]
          rw [hdur] at hgle
          exact hgle
      · intro ev hev
        rw [u_k, hlnil] at hev
        simp at hev

/-- Folding the step lemma over a frame sequence. -/
theorem specInv_run (orc : Oracle) (tm : TrigModel)
    {l : List NoteEvent} {dur : ℚ} (hsort : sortedByTime l) :
    ∀ (dts : List ℚ) (t0 : ℚ) (s : GameScene), (∀ d ∈ dts, 0 ≤ d) →
      specInv l dur t0 s →
      pendingAfter l s.spawnIndex s.timeElapsed →
      specInv l dur (t0 + dts.sum) (runUpdates orc tm dts s) ∧
      pendingAfter l (runUpdates orc tm dts s).spawnIndex
        (runUpdates orc tm dts s).timeElapsed := by
  intro dts
  induction dts with
  | nil =>
      intro t0 s _ hInv hpend
      simpa [runUpdates] using ⟨hInv, hpend⟩
  | cons d dts ih =>
      intro t0 s hdt hInv hpend
      have hstep := specInv_step orc tm hsort (hdt d (by simp))
        hInv (Or.inr hpend)
      have hrun := ih (t0 + d) (s.update orc tm d)
        (fun d' hd' => hdt d' (by simp [hd'])) hstep.1 hstep.2
      have : runUpdates orc tm (d :: dts) s =
          runUpdates orc tm dts (s.update orc tm d) := rfl
      rw [this]
      rw [List.sum_cons]
      have harith : t0 + (d + dts.sum) = t0 + d + dts.sum := by ring
      rw [harith]
      exact hrun

/-- From the invariant plus the frontier property, the emitted trace is
exactly the filter of due events. -/
theorem specInv_conclude {l : List NoteEvent} {dur T : ℚ} {s : GameScene}
    (hsort : sortedByTime l) (hdur : ∀ ev ∈ l, ev.time ≤ dur)
    (hInv : specInv l dur T s)
    (hpend : pendingAfter l s.spawnIndex s.timeElapsed) :
    s.emitted = l.filter (fun ev => decide (ev.time ≤ T)) ∧
    sortedByTime s.emitted ∧
    s.emitted = l.take s.spawnIndex ∧
    s.spawnIndex = s.emitted.length := by
  obtain ⟨hsp, hdur', hup, hk, hem, hall, hle, hgf, hgt⟩ := hInv
  have hfil : l.take s.spawnIndex = l.filter fun ev => decide (ev.time ≤ T) := by
    cases hgo : s.gameOver with
    | false =>
        have ht : s.timeElapsed = T := hgf hgo
        refine take_eq_filter_of_frontier hsort hk ?_ ?_
        · intro ev hev
          have := hall ev hev
          linarith [le_of_eq ht]
        · intro ev hev
          have := hpend ev hev
          linarith [le_of_eq ht.symm]
    | true =>
        have hdle : dur ≤ s.timeElapsed := hgt hgo
        have hklen : s.spawnIndex = l.length := by
          by_contra hne
          have hlt : s.spawnIndex < l.length := lt_of_le_of_ne hk hne
          have h1 := hpend (l.get ⟨s.spawnIndex, hlt⟩) (List.get?_eq_get hlt)
          have hmem : l.get ⟨s.spawnIndex, hlt⟩ ∈ l := l.get_mem _ _
          have h2 := hdur _ hmem
          linarith
        rw [hklen, List.take_length]
        symm
        refine List.filter_eq_self.mpr ?_
        intro ev hev
        have h1 : ev.time ≤ dur := hdur ev hev
        simp only [decide_eq_true_eq]
        linarith
  refine ⟨hem.trans hfil, ?_, hem, ?_⟩
  · rw [sortedByTime, hem]
    exact hsort.sublist (List.take_sublist _ _)
  · rw [hem, List.length_take]
    exact (min_eq_left hk).symm

/-- The constructor state satisfies the invariant at total time `0`. -/
theorem specInv_init (l : List NoteEvent) (dur canvasW canvasH : ℚ) :
    specInv l dur 0 (GameScene.init l dur canvasW canvasH) := by
  refine ⟨rfl, rfl, rfl, by simp [GameScene.init], by simp [GameScene.init],
    ?_, le_refl 0, fun _ => rfl, fun h => by cases h⟩
  intro ev hev
  simp [GameScene.init] at hev

/-! ## Concrete instances used by the witnesses -/

/-- A trivial random oracle (any other choice works in every theorem). -/
def oracle0 : Oracle := ⟨fun _ => 0, fun _ => 0, fun _ => 0⟩

/-- A trivial trig model (any other choice works in every theorem). -/
def trig0 : TrigModel := ⟨fun _ => 0, 0⟩

/-- The spec's scheduler catch-up example: events at `t = 0.0, 0.8, 1.6`. -/
def c1pattern : List NoteEvent := [⟨0, 0, 0⟩, ⟨0.8, 1, 1⟩, ⟨1.6, 2, 2⟩]

/-! ## Claim theorems -/

/-- C1: for every time-sorted pattern and every nonempty sequence of
`update(dt)` calls with `dt ≥ 0` whose cumulative elapsed time reaches
`T = dts.sum` (pattern times not exceeding the song duration, as every level
of the game satisfies), the note events emitted by `GameScene.update` are
exactly those with `time ≤ T`, in nondecreasing time order, each exactly
once (the trace is a prefix of the pattern), with the cursor `spawnIndex`
advanced once per emission — even when a single large `dt` crosses several
event times. -/
theorem C1_spawn_scheduler (orc : Oracle) (tm : TrigModel)
    (l : List NoteEvent) (dur canvasW canvasH : ℚ) (dts : List ℚ)
    (hsort : sortedByTime l) (hne : dts ≠ [])
    (hdt : ∀ d ∈ dts, 0 ≤ d) (hdur : ∀ ev ∈ l, ev.time ≤ dur) :
    (runUpdates orc tm dts (GameScene.init l dur canvasW canvasH)).emitted =
      l.filter (fun ev => decide (ev.time ≤ dts.sum)) ∧
    sortedByTime
      (runUpdates orc tm dts (GameScene.init l dur canvasW canvasH)).emitted ∧
    (runUpdates orc tm dts (GameScene.init l dur canvasW canvasH)).emitted =
      l.take
        (runUpdates orc tm dts (GameScene.init l dur canvasW canvasH)).spawnIndex ∧
    (runUpdates orc tm dts (GameScene.init l dur canvasW canvasH)).spawnIndex =
      (runUpdates orc tm dts
        (GameScene.init l dur canvasW canvasH)).emitted.length := by
  cases dts with
  | nil => exact absurd rfl hne
  | cons d rest =>
      have hstep := specInv_step orc tm hsort (hdt d (by simp))
        (specInv_init l dur canvasW canvasH) (Or.inl ⟨rfl, rfl, rfl⟩)
      have hrun := specInv_run orc tm hsort rest (0 + d)
        ((GameScene.init l dur canvasW canvasH).update orc tm d)
        (fun d' hd' => hdt d' (by simp [hd'])) hstep.1 hstep.2
      have heq : runUpdates orc tm (d :: rest)
          (GameScene.init l dur canvasW canvasH) =
          runUpdates orc tm rest
            ((GameScene.init l dur canvasW canvasH).update orc tm d) := rfl
      have hsum : (d :: rest).sum = 0 + d + rest.sum := by
        rw [List.sum_cons]; ring
      rw [heq, hsum]
      exact specInv_conclude hsort hdur hrun.1 hrun.2

/-- Witness for C1 at the spec's catch-up example: a single `update(2.0)`
call from rest emits all three events of `c1pattern` in order. -/
theorem C1_spawn_scheduler_witness :
    sortedByTime c1pattern ∧ ([(2 : ℚ)] ≠ []) ∧
    (∀ d ∈ [(2 : ℚ)], 0 ≤ d) ∧ (∀ ev ∈ c1pattern, ev.time ≤ 120) ∧
    ((runUpdates oracle0 trig0 [2]
        (GameScene.init c1pattern 120 400 800)).emitted =
      c1pattern.filter (fun ev => decide (ev.time ≤ ([(2 : ℚ)]).sum)) ∧
    sortedByTime (runUpdates oracle0 trig0 [2]
        (GameScene.init c1pattern 120 400 800)).emitted ∧
    (runUpdates oracle0 trig0 [2]
        (GameScene.init c1pattern 120 400 800)).emitted =
      c1pattern.take (runUpdates oracle0 trig0 [2]
        (GameScene.init c1pattern 120 400 800)).spawnIndex ∧
    (runUpdates oracle0 trig0 [2]
        (GameScene.init c1pattern 120 400 800)).spawnIndex =
      (runUpdates oracle0 trig0 [2]
        (GameScene.init c1pattern 120 400 800)).emitted.length) :=
  ⟨by norm_num [sortedByTime, c1pattern, List.pairwise_cons],
   by norm_num,
   by norm_num,
   by norm_num [c1pattern],
   C1_spawn_scheduler oracle0 trig0 c1pattern 120 400 800 [2]
     (by norm_num [sortedByTime, c1pattern, List.pairwise_cons])
     (by norm_num) (by norm_num) (by norm_num [c1pattern])⟩

/-- A game-over state for the C10 witness. -/
def gameOverScene : GameScene :=
  { GameScene.init [] 1 1 1 with gameOver := true }

/-- C10: once the game-over flag is set, every subsequent
`GameScene.update(dt)` call returns the state unchanged (the guard is the
first statement of `update`), and `endGame` is idempotent. -/
theorem C10_gameOver_freeze (orc : Oracle) (tm : TrigModel) (s : GameScene)
    (h : s.gameOver = true) :
    (∀ dt : ℚ, s.update orc tm dt = s) ∧ s.endGame = s := by
  constructor
  · intro dt
    simp [GameScene.update, h]
  · simp [GameScene.endGame, h]

/-- Witness for C10 at a concrete game-over state. -/
theorem C10_gameOver_freeze_witness :
    gameOverScene.gameOver = true ∧
    ((∀ dt : ℚ, gameOverScene.update oracle0 trig0 dt = gameOverScene) ∧
      gameOverScene.endGame = gameOverScene) :=
  ⟨rfl, C10_gameOver_freeze oracle0 trig0 gameOverScene rfl⟩

/-- JS `config.blockTypes[i]` for an arbitrary integer index: negative or
too-large indices yield `undefined` (`none`). -/
def jsIndex (l : List BlockType) (i : ℤ) : Option BlockType :=
  if 0 ≤ i then l.get? i.toNat else none

/-- editorScene.js line 1320 (`EditorScene.render`):
`config.blockTypes[note.type] || config.blockTypes[0]` — the type descriptor
the editor renders a note with. -/
def editorNoteTypeDef (t : ℤ) : BlockType :=
  (jsIndex configBlockTypes t).getD (configBlockTypes.getD 0 defaultBlockType)

/-- C2 counterexample: with the out-of-range type index `3`
(`config.blockTypes.length = 3`), `GameScene.spawnBlockOfType` returns the
scene UNCHANGED — the note is dropped, not processed with the index-0
default descriptor as the claim states. -/
theorem C2_counterexample :
    ((3 : ℤ) < 0 ∨ (configBlockTypes.length : ℤ) ≤ 3) ∧
    (GameScene.init [] 120 400 800).spawnBlockOfType oracle0 3 (some 0) =
      GameScene.init [] 120 400 800 := by
  constructor
  · right
    norm_num [configBlockTypes]
  · simp [GameScene.spawnBlockOfType, configBlockTypes]

/-- C2 (amended): for every out-of-range type index the EDITOR's renderer
falls back to the default descriptor at index 0, while the GAME's
`spawnBlockOfType` silently ignores the note (no block is spawned, nothing
fails) rather than spawning it with the default descriptor. -/
theorem C2_out_of_range_type (orc : Oracle) (s : GameScene) (t : ℤ)
    (lane : Option ℤ) (h : t < 0 ∨ (configBlockTypes.length : ℤ) ≤ t) :
    s.spawnBlockOfType orc t lane = s ∧
    editorNoteTypeDef t = configBlockTypes.getD 0 defaultBlockType := by
  constructor
  · simp [GameScene.spawnBlockOfType, h]
  · unfold editorNoteTypeDef jsIndex
    rcases h with h | h
    · rw [if_neg (not_le.mpr h)]
      rfl
    · by_cases h0 : 0 ≤ t
      · rw [if_pos h0]
        have hlen : configBlockTypes.length ≤ t.toNat := by omega
        rw [List.get?_eq_none.mpr hlen]
        rfl
      · rw [if_neg h0]
        rfl

/-- Witness for the amended C2 at `type = 3`. -/
theorem C2_out_of_range_type_witness :
    ((3 : ℤ) < 0 ∨ (configBlockTypes.length : ℤ) ≤ 3) ∧
    ((GameScene.init [] 120 400 800).spawnBlockOfType oracle0 3 (some 0) =
        GameScene.init [] 120 400 800 ∧
      editorNoteTypeDef 3 = configBlockTypes.getD 0 defaultBlockType) :=
  ⟨by norm_num [configBlockTypes],
   C2_out_of_range_type oracle0 (GameScene.init [] 120 400 800) 3 (some 0)
     (by norm_num [configBlockTypes])⟩

/-! ## Score invariant machinery (claim C3) -/

/-- `Block.update` never changes the type descriptor. -/
theorem Block.update_type (tm : TrigModel) (dt : ℚ) (b : Block) :
    (b.update tm dt).type = b.type := by
  simp only [Block.update]
  split <;> rfl

/-- Every configured block type carries no per-type `score` field. -/
theorem config_score_eq_none : ∀ bt ∈ configBlockTypes, bt.score = none := by
  intro bt hbt
  simp only [configBlockTypes, List.mem_cons, List.mem_singleton] at hbt
  rcases hbt with rfl | rfl | rfl | h
  · rfl
  · rfl
  · rfl
  · simp at h

/-- Blocks appended by `spawnBlockOfType` have a configured type. -/
theorem mem_blocks_spawnBlockOfType {orc : Oracle} {s : GameScene} {t : ℤ}
    {ln : Option ℤ} {b : Block}
    (hb : b ∈ (s.spawnBlockOfType orc t ln).blocks) :
    b ∈ s.blocks ∨ b.type ∈ configBlockTypes := by
  rw [GameScene.spawnBlockOfType] at hb
  split at hb
  · exact Or.inl hb
  · rcases List.mem_append.mp hb with h | h
    · exact Or.inl h
    · right
      rw [List.mem_singleton.mp h]
      have hrange : ¬(t < 0 ∨ (configBlockTypes.length : ℤ) ≤ t) := by
        assumption
      push_neg at hrange
      have htn : t.toNat < configBlockTypes.length := by omega
      exact getD_mem_of_lt defaultBlockType htn

/-- Blocks appended by the pattern spawn fold have a configured type. -/
theorem mem_blocks_foldSpawn {orc : Oracle} {due : List NoteEvent} {b : Block} :
    ∀ {s : GameScene},
      b ∈ (due.foldl
        (fun acc ev => acc.spawnBlockOfType orc ev.type (some ev.lane))
        s).blocks →
      b ∈ s.blocks ∨ b.type ∈ configBlockTypes := by
  induction due with
  | nil => intro s hb; exact Or.inl hb
  | cons ev due ih =>
      intro s hb
      rcases ih hb with h | h
      · exact mem_blocks_spawnBlockOfType h
      · exact Or.inr h

/-- Blocks appended by `stepSpawns` have a configured type. -/
theorem mem_blocks_stepSpawns {orc : Oracle} {dt : ℚ} {s : GameScene}
    {b : Block} (hb : b ∈ (s.stepSpawns orc dt).blocks) :
    b ∈ s.blocks ∨ b.type ∈ configBlockTypes := by
  simp only [GameScene.stepSpawns] at hb
  split at hb
  · exact mem_blocks_foldSpawn hb
  · split at hb
    · rcases List.mem_append.mp hb with h | h
      · exact Or.inl h
      · right
        rw [List.mem_singleton.mp h]
        refine getD_mem_of_lt defaultBlockType ?_
        exact Nat.mod_lt _ (by decide)
    · exact Or.inl hb

/-- Blocks of the pre-resolve state have a configured type or come from the
previous frame. -/
theorem mem_blocks_preResolve {orc : Oracle} {tm : TrigModel} {dt : ℚ}
    {s : GameScene} {b : Block}
    (hb : b ∈ (s.preResolve orc tm dt).blocks) :
    b ∈ s.blocks ∨ b.type ∈ configBlockTypes := by
  have hb' : b ∈ ((tick dt s).stepSpawns orc dt).blocks := hb
  rcases @mem_blocks_stepSpawns orc dt (tick dt s) b hb' with h | h
  · exact Or.inl h
  · exact Or.inr h

/-- The pre-resolve steps do not touch the score. -/
theorem preResolve_score (orc : Oracle) (tm : TrigModel) (dt : ℚ)
    (s : GameScene) : (s.preResolve orc tm dt).score = s.score := by
  by_cases hP : (tick dt s).usePattern = true
  · obtain ⟨_, _, _, _, _, _, _, _, _, h10, _⟩ :=
      stepSpawns_pattern orc dt (tick dt s) hP
    exact h10
  · have hPf : (tick dt s).usePattern = false := by
      cases h : (tick dt s).usePattern
      · rfl
      · exact absurd h hP
    obtain ⟨_, _, _, _, _, _, _, _, _, h10, _⟩ :=
      stepSpawns_noPattern orc dt (tick dt s) hPf
    exact h10

/-- The block-resolution fold keeps the score nonnegative when every block
has a configured type. -/
theorem resolve_fold_score {tm : TrigModel} {dt canvasH : ℚ} {p : Player} :
    ∀ (bs : List Block) (acc : RAcc),
      (∀ b ∈ bs, b.type ∈ configBlockTypes) → 0 ≤ acc.score →
      0 ≤ (bs.foldl (resolveStep tm dt canvasH p) acc).score := by
  intro bs
  induction bs with
  | nil => intro acc _ hacc; exact hacc
  | cons b bs ih =>
      intro acc hty hacc
      rw [List.foldl_cons]
      refine ih _ (fun b' hb' => hty b' (List.mem_cons_of_mem b hb')) ?_
      have hbty : (b.update tm dt).type ∈ configBlockTypes := by
        rw [Block.update_type]
        exact hty b (List.mem_cons_self b bs)
      have hscore := config_score_eq_none _ hbty
      simp only [resolveStep]
      split
      · simp only [hscore, scoringHit]
        linarith
      · split
        · simp only [scoringMiss]
          norm_num
        · exact hacc

/-- Blocks surviving the resolution fold are moved previous blocks (or were
already in the accumulator). -/
theorem resolve_fold_blocks {tm : TrigModel} {dt canvasH : ℚ} {p : Player}
    {b : Block} :
    ∀ (bs : List Block) (acc : RAcc),
      b ∈ (bs.foldl (resolveStep tm dt canvasH p) acc).blocks →
      b ∈ acc.blocks ∨ ∃ b₀ ∈ bs, b = b₀.update tm dt := by
  intro bs
  induction bs with
  | nil => intro acc hb; exact Or.inl hb
  | cons b₀ bs ih =>
      intro acc hb
      rw [List.foldl_cons] at hb
      rcases ih _ hb with h | ⟨b₁, hb₁, rfl⟩
      · simp only [resolveStep] at h
        split at h
        · exact Or.inl h
        · split at h
          · split at h
            · exact Or.inl h
            · exact Or.inl h
          · rcases List.mem_append.mp h with h | h
            · exact Or.inl h
            · exact Or.inr ⟨b₀, List.mem_cons_self b₀ bs,
                List.mem_singleton.mp h⟩
      · exact Or.inr ⟨b₁, List.mem_cons_of_mem b₀ hb₁, rfl⟩

/-- The per-session invariant behind claim C3: nonnegative score and only
configured block types in flight. -/
def gameInv (s : GameScene) : Prop :=
  0 ≤ s.score ∧ ∀ b ∈ s.blocks, b.type ∈ configBlockTypes

/-- `GameScene.update` preserves the score invariant. -/
theorem gameInv_step (orc : Oracle) (tm : TrigModel) (dt : ℚ)
    {s : GameScene} (h : gameInv s) : gameInv (s.update orc tm dt) := by
  by_cases hgo : s.gameOver = true
  · simpa [GameScene.update, hgo] using h
  · have hgo' : s.gameOver = false := by
      cases hh : s.gameOver
      · rfl
      · exact absurd hh hgo
    have hu : s.update orc tm dt =
        ((s.preResolve orc tm dt).resolveBlocks tm dt).postResolve dt := by
      simp [GameScene.update, hgo']
    obtain ⟨_, _, _, _, _, _, hps, _, hpb⟩ :=
      postResolve_frame dt ((s.preResolve orc tm dt).resolveBlocks tm dt)
    have hmty : ∀ b ∈ (s.preResolve orc tm dt).blocks,
        b.type ∈ configBlockTypes := by
      intro b hb
      rcases mem_blocks_preResolve hb with hb' | hb'
      · exact h.2 b hb'
      · exact hb'
    constructor
    · rw [hu, hps]
      have : ((s.preResolve orc tm dt).resolveBlocks tm dt).score =
          ((s.preResolve orc tm dt).blocks.foldl
            (resolveStep tm dt (s.preResolve orc tm dt).canvasH
              (s.preResolve orc tm dt).player)
            ⟨(s.preResolve orc tm dt).score, (s.preResolve orc tm dt).misses,
              [], (s.preResolve orc tm dt).scoreEffects,
              (s.preResolve orc tm dt).effects⟩).score := rfl
      rw [this]
      refine resolve_fold_score _ _ hmty ?_
      show 0 ≤ (s.preResolve orc tm dt).score
      rw [preResolve_score]
      exact h.1
    · intro b hb
      rw [hu, hpb] at hb
      have hb' : b ∈ ((s.preResolve orc tm dt).blocks.foldl
          (resolveStep tm dt (s.preResolve orc tm dt).canvasH
            (s.preResolve orc tm dt).player)
          ⟨(s.preResolve orc tm dt).score, (s.preResolve orc tm dt).misses,
            [], (s.preResolve orc tm dt).scoreEffects,
            (s.preResolve orc tm dt).effects⟩).blocks := hb
      rcases resolve_fold_blocks _ _ hb' with hnil | ⟨b₀, hb₀, rfl⟩
      · simp at hnil
      · rw [Block.update_type]
        exact hmty b₀ hb₀

/-- The score invariant holds along any frame sequence. -/
theorem gameInv_run (orc : Oracle) (tm : TrigModel) :
    ∀ (dts : List ℚ) (s : GameScene), gameInv s →
      gameInv (runUpdates orc tm dts s) := by
  intro dts
  induction dts with
  | nil => intro s h; exact h
  | cons d dts ih =>
      intro s h
      exact ih _ (gameInv_step orc tm d h)

/-- C3: starting from score = 0, for every sequence of per-frame hit and
miss resolutions performed by `GameScene.update` (hits adding the type's
point value — the configured types carry none, so the default 1 applies —
and misses subtracting the penalty floored at zero), the score stays
nonnegative after every update call. -/
theorem C3_score_nonneg (orc : Oracle) (tm : TrigModel)
    (l : List NoteEvent) (dur canvasW canvasH : ℚ) (dts : List ℚ) :
    0 ≤ (runUpdates orc tm dts (GameScene.init l dur canvasW canvasH)).score :=
  (gameInv_run orc tm dts (GameScene.init l dur canvasW canvasH)
    ⟨le_refl 0, by simp [GameScene.init]⟩).1

/-! ## Boundary-miss characterisation (claim C4) -/

/-- A (moved) block stays alive this frame: not hit and the code's boundary
test `block.y - block.size / 2 > canvas.height` (part_002:277) not yet
triggered. -/
def survives (canvasH : ℚ) (p : Player) (b : Block) : Bool :=
  !hitPlayer b p && !decide (canvasH < b.y - b.size / 2)

/-- A (moved) block is counted as a miss this frame: not hit and past the
code's boundary test `block.y - block.size / 2 > canvas.height`. -/
def missedOut (canvasH : ℚ) (p : Player) (b : Block) : Bool :=
  !hitPlayer b p && decide (canvasH < b.y - b.size / 2)

/-- The block loop of `GameScene.update`, characterised: the surviving
blocks are exactly the moved blocks that are neither hit nor past the
boundary (in order), and the miss counter grows by the number of moved
blocks that are not hit but past the boundary. -/
theorem resolve_fold_char {tm : TrigModel} {dt canvasH : ℚ} {p : Player} :
    ∀ (bs : List Block) (acc : RAcc),
      (bs.foldl (resolveStep tm dt canvasH p) acc).blocks =
        acc.blocks ++
          (bs.map (Block.update tm dt)).filter (survives canvasH p) ∧
      (bs.foldl (resolveStep tm dt canvasH p) acc).misses =
        acc.misses +
          ((bs.map (Block.update tm dt)).filter
            (missedOut canvasH p)).length := by
  intro bs
  induction bs with
  | nil => intro acc; simp
  | cons b bs ih =>
      intro acc
      rw [List.foldl_cons, List.map_cons, List.filter_cons, List.filter_cons]
      obtain ⟨ihb, ihm⟩ := ih (resolveStep tm dt canvasH p acc b)
      by_cases h1 : hitPlayer (b.update tm dt) p
      · have hstep_b : (resolveStep tm dt canvasH p acc b).blocks =
            acc.blocks := by
          simp only [resolveStep]
          rw [if_pos h1]
        have hstep_m : (resolveStep tm dt canvasH p acc b).misses =
            acc.misses := by
          simp only [resolveStep]
          rw [if_pos h1]
        rw [ihb, ihm, hstep_b, hstep_m]
        simp [survives, missedOut, h1]
      · by_cases h2 : canvasH < (b.update tm dt).y - (b.update tm dt).size / 2
        · have hstep_b : (resolveStep tm dt canvasH p acc b).blocks =
              acc.blocks := by
            simp only [resolveStep]
            rw [if_neg h1, if_pos h2]
            split <;> rfl
          have hstep_m : (resolveStep tm dt canvasH p acc b).misses =
              acc.misses + 1 := by
            simp only [resolveStep]
            rw [if_neg h1, if_pos h2]
            split <;> rfl
          rw [ihb, ihm, hstep_b, hstep_m]
          constructor
          · simp [survives, missedOut, h1, h2]
          · simp only [survives, missedOut, h1, h2, decide_eq_true_eq,
              Bool.not_false, Bool.true_and, decide_eq_false_iff_not,
              not_true, Bool.not_true, Bool.false_and]
            simp [h2]
            omega
        · have hstep_b : (resolveStep tm dt canvasH p acc b).blocks =
              acc.blocks ++ [b.update tm dt] := by
            simp only [resolveStep]
            rw [if_neg h1, if_neg h2]
          have hstep_m : (resolveStep tm dt canvasH p acc b).misses =
              acc.misses := by
            simp only [resolveStep]
            rw [if_neg h1, if_neg h2]
          rw [ihb, ihm, hstep_b, hstep_m]
          constructor
          · simp [survives, missedOut, h1, h2]
          · simp [survives, missedOut, h1, h2]

/-- The pre-resolve steps do not touch the miss counter. -/
theorem preResolve_misses (orc : Oracle) (tm : TrigModel) (dt : ℚ)
    (s : GameScene) : (s.preResolve orc tm dt).misses = s.misses := by
  by_cases hP : (tick dt s).usePattern = true
  · obtain ⟨_, _, _, _, _, _, _, _, _, _, h11⟩ :=
      stepSpawns_pattern orc dt (tick dt s) hP
    exact h11
  · have hPf : (tick dt s).usePattern = false := by
      cases h : (tick dt s).usePattern
      · rfl
      · exact absurd h hP
    obtain ⟨_, _, _, _, _, _, _, _, _, _, h11⟩ :=
      stepSpawns_noPattern orc dt (tick dt s) hPf
    exact h11

/-- The pre-resolve steps do not change the canvas height. -/
theorem preResolve_canvasH (orc : Oracle) (tm : TrigModel) (dt : ℚ)
    (s : GameScene) : (s.preResolve orc tm dt).canvasH = s.canvasH := by
  by_cases hP : (tick dt s).usePattern = true
  · obtain ⟨_, _, _, _, _, _, _, _, h9, _, _⟩ :=
      stepSpawns_pattern orc dt (tick dt s) hP
    exact h9
  · have hPf : (tick dt s).usePattern = false := by
      cases h : (tick dt s).usePattern
      · rfl
      · exact absurd h hP
    obtain ⟨_, _, _, _, _, _, _, _, h9, _, _⟩ :=
      stepSpawns_noPattern orc dt (tick dt s) hPf
    exact h9

/-- C4 (amended): in each non-game-over `GameScene.update` frame, a live
falling entity (including ones spawned this frame) that does not intersect
the player is counted as a miss — miss counter incremented, entity removed —
exactly when the code's boundary test `y - size/2 > canvas.height` holds for
its moved position (NOT when its bottom edge `y + size` first passes the
canvas height, as the original claim stated); an entity neither hit nor past
that test persists, in order, with only its per-frame motion/animation update
applied. -/
theorem C4_miss_boundary (orc : Oracle) (tm : TrigModel) (dt : ℚ)
    (s : GameScene) (h : s.gameOver = false) :
    (s.update orc tm dt).misses = s.misses +
      (((s.preResolve orc tm dt).blocks.map (Block.update tm dt)).filter
        (missedOut s.canvasH (s.preResolve orc tm dt).player)).length ∧
    (s.update orc tm dt).blocks =
      ((s.preResolve orc tm dt).blocks.map (Block.update tm dt)).filter
        (survives s.canvasH (s.preResolve orc tm dt).player) := by
  have hu : s.update orc tm dt =
      ((s.preResolve orc tm dt).resolveBlocks tm dt).postResolve dt := by
    simp [GameScene.update, h]
  obtain ⟨_, _, _, _, _, _, _, hpm, hpb⟩ :=
    postResolve_frame dt ((s.preResolve orc tm dt).resolveBlocks tm dt)
  obtain ⟨hfb, hfm⟩ := @resolve_fold_char tm dt
    (s.preResolve orc tm dt).canvasH (s.preResolve orc tm dt).player
    (s.preResolve orc tm dt).blocks
    ⟨(s.preResolve orc tm dt).score, (s.preResolve orc tm dt).misses, [],
      (s.preResolve orc tm dt).scoreEffects, (s.preResolve orc tm dt).effects⟩
  have hrb : ((s.preResolve orc tm dt).resolveBlocks tm dt).blocks =
      ((s.preResolve orc tm dt).blocks.foldl
        (resolveStep tm dt (s.preResolve orc tm dt).canvasH
          (s.preResolve orc tm dt).player)
        ⟨(s.preResolve orc tm dt).score, (s.preResolve orc tm dt).misses, [],
          (s.preResolve orc tm dt).scoreEffects,
          (s.preResolve orc tm dt).effects⟩).blocks := rfl
  have hrm : ((s.preResolve orc tm dt).resolveBlocks tm dt).misses =
      ((s.preResolve orc tm dt).blocks.foldl
        (resolveStep tm dt (s.preResolve orc tm dt).canvasH
          (s.preResolve orc tm dt).player)
        ⟨(s.preResolve orc tm dt).score, (s.preResolve orc tm dt).misses, [],
          (s.preResolve orc tm dt).scoreEffects,
          (s.preResolve orc tm dt).effects⟩).misses := rfl
  have hch := preResolve_canvasH orc tm dt s
  constructor
  · rw [hu, hpm, hrm, hfm, preResolve_misses, hch]
  · rw [hu, hpb, hrb, hfb, hch]
    simp

/-- A concrete block whose bottom edge (`y + size = 830`) has passed an
800-pixel canvas but which the code does not yet count as a miss. -/
def c4Block : Block :=
  { x := 300, y := 790, size := 40, speed := 200,
    type := ⟨"#ff6bcb", none, none, none⟩, rotation := 0, pulseTime := 0,
    alpha := 1 }

/-- A game state holding `c4Block` mid-session on a 400 × 800 canvas. -/
def c4Scene : GameScene :=
  { GameScene.init [] 120 400 800 with blocks := [c4Block], timeElapsed := 10 }

/-- C4 counterexample: in the `update(0)` frame on `c4Scene`, the block's
bottom edge (830) has passed the canvas height (800) and the block does not
intersect the player, yet no miss is counted and the entity persists —
because the code's boundary test is `y - size/2 > canvas.height`
(770 > 800 is false), not "bottom edge past the canvas height" as the claim
states. -/
theorem C4_counterexample :
    (800 : ℚ) < c4Block.y + c4Block.size ∧
    hitPlayer (c4Block.update trig0 0)
      (c4Scene.preResolve oracle0 trig0 0).player = false ∧
    (c4Scene.update oracle0 trig0 0).misses = 0 ∧
    (c4Scene.update oracle0 trig0 0).blocks = [c4Block.update trig0 0] := by
  have hhit : hitPlayer (c4Block.update trig0 0)
      (c4Scene.preResolve oracle0 trig0 0).player = false := by
    norm_num [hitPlayer, rectIntersect, Block.update, Player.update,
      GameScene.preResolve, GameScene.stepSpawns, GameScene.init, Player.init,
      c4Scene, c4Block, trig0, tick]
  obtain ⟨hm, hb⟩ := C4_miss_boundary oracle0 trig0 0 c4Scene rfl
  have hpreb : (c4Scene.preResolve oracle0 trig0 0).blocks = [c4Block] := by
    norm_num [GameScene.preResolve, GameScene.stepSpawns, GameScene.init,
      c4Scene, tick]
  have hpast : decide ((800 : ℚ) < (c4Block.update trig0 0).y -
      (c4Block.update trig0 0).size / 2) = false := by
    norm_num [Block.update, c4Block]
  refine ⟨by norm_num [c4Block], hhit, ?_, ?_⟩
  · rw [hm, hpreb]
    have : c4Scene.canvasH = 800 := rfl
    rw [this]
    simp [missedOut, hhit, hpast, c4Scene, GameScene.init]
  · rw [hb, hpreb]
    have : c4Scene.canvasH = 800 := rfl
    rw [this]
    simp [survives, hhit, hpast]

/-- Witness for the amended C4 on the same concrete frame. -/
theorem C4_miss_boundary_witness :
    c4Scene.gameOver = false ∧
    ((c4Scene.update oracle0 trig0 0).misses = c4Scene.misses +
      (((c4Scene.preResolve oracle0 trig0 0).blocks.map
          (Block.update trig0 0)).filter
        (missedOut c4Scene.canvasH
          (c4Scene.preResolve oracle0 trig0 0).player)).length ∧
    (c4Scene.update oracle0 trig0 0).blocks =
      ((c4Scene.preResolve oracle0 trig0 0).blocks.map
          (Block.update trig0 0)).filter
        (survives c4Scene.canvasH
          (c4Scene.preResolve oracle0 trig0 0).player)) :=
  ⟨rfl, C4_miss_boundary oracle0 trig0 0 c4Scene rfl⟩

/-- C5 (code-bug evidence): the entry-scale curve of `Player.update`
(`0.8 + 0.2 * sin(progress * π * 2)`, player.js line 60) equals 0.8 < 1 at
progress 0 — it does NOT start above 1.0 — equals 0.8 again at progress 1 —
it does NOT settle at exactly 1.0 at the end of the 0.8 s window — and
attains the value 1.0 already at progress 1/4, i.e. not only at completion;
the code's own comment ("starts large, shrinks, then settles at scale 1")
and the claim describe a different curve. -/
theorem C5_entry_curve_values :
    entryScaleCurve 0 = 0.8 ∧ (0.8 : ℝ) < 1 ∧
    entryScaleCurve 1 = 0.8 ∧
    entryScaleCurve (1 / 4) = 1 := by
  refine ⟨?_, by norm_num, ?_, ?_⟩
  · unfold entryScaleCurve
    simp
  · unfold entryScaleCurve
    rw [show (1 : ℝ) * Real.pi * 2 = 2 * Real.pi by ring, Real.sin_two_pi]
    norm_num
  · unfold entryScaleCurve
    rw [show (1 / 4 : ℝ) * Real.pi * 2 = Real.pi / 2 by ring,
      Real.sin_pi_div_two]
    norm_num

/-- C6: the editor's pointer-down transform
`time = (scrollOffset + localY) / pxPerSecond` and the render placement
transform `localY = time * pxPerSecond - scrollOffset` are exact inverses for
every `pxPerSecond > 0`; in particular `pxPerSecond = 50`,
`scrollOffset = 100`, `localY = 150` gives `time = 5.0` exactly, and the
inverse of `time = 5.0` returns `localY = 150`. -/
theorem C6_transform_inverse (pxPerSecond scrollOffset localY t : ℚ)
    (h : 0 < pxPerSecond) :
    editorYOfTime pxPerSecond scrollOffset
      (editorTimeOfY pxPerSecond scrollOffset localY) = localY ∧
    editorTimeOfY pxPerSecond scrollOffset
      (editorYOfTime pxPerSecond scrollOffset t) = t ∧
    editorTimeOfY 50 100 150 = 5 ∧
    editorYOfTime 50 100 5 = 150 := by
  have h0 : pxPerSecond ≠ 0 := ne_of_gt h
  refine ⟨?_, ?_, ?_, ?_⟩
  · unfold editorYOfTime editorTimeOfY
    field_simp
  · unfold editorYOfTime editorTimeOfY
    field_simp
  · unfold editorTimeOfY
    norm_num
  · unfold editorYOfTime
    norm_num

/-- Witness for C6 at the spec's mapping example. -/
theorem C6_transform_inverse_witness :
    (0 : ℚ) < 50 ∧
    (editorYOfTime 50 100 (editorTimeOfY 50 100 150) = 150 ∧
     editorTimeOfY 50 100 (editorYOfTime 50 100 5) = 5 ∧
     editorTimeOfY 50 100 150 = 5 ∧
     editorYOfTime 50 100 5 = 150) :=
  ⟨by norm_num, C6_transform_inverse 50 100 150 5 (by norm_num)⟩

/-! ## Sorting and toggle lemmas for the editor pattern (claim C7) -/

/-- Membership through `insertNote`. -/
theorem mem_insertNote {e b : NoteEvent} :
    ∀ {l : List NoteEvent}, b ∈ insertNote e l ↔ b = e ∨ b ∈ l := by
  intro l
  induction l with
  | nil => simp [insertNote]
  | cons a l ih =>
      by_cases h : a.time ≤ e.time
      · rw [insertNote, if_pos h]
        simp only [List.mem_cons, ih]
        tauto
      · rw [insertNote, if_neg h]
        simp only [List.mem_cons]

/-- Inserting after everything that is not later gives a plain append. -/
theorem insertNote_of_all_le {e : NoteEvent} :
    ∀ {l : List NoteEvent}, (∀ a ∈ l, a.time ≤ e.time) →
      insertNote e l = l ++ [e] := by
  intro l
  induction l with
  | nil => intro _; rfl
  | cons a l ih =>
      intro h
      rw [insertNote, if_pos (h a (List.mem_cons_self a l))]
      rw [ih fun a' ha' => h a' (List.mem_cons_of_mem a ha')]
      rfl

/-- `insertNote` preserves sortedness. -/
theorem insertNote_sorted {e : NoteEvent} :
    ∀ {l : List NoteEvent}, sortedByTime l → sortedByTime (insertNote e l) := by
  intro l
  induction l with
  | nil => intro _; simp [insertNote, sortedByTime]
  | cons a l ih =>
      intro h
      rw [sortedByTime, List.pairwise_cons] at h
      by_cases hle : a.time ≤ e.time
      · rw [insertNote, if_pos hle, sortedByTime, List.pairwise_cons]
        refine ⟨?_, ih h.2⟩
        intro b hb
        rcases mem_insertNote.mp hb with rfl | hb'
        · exact hle
        · exact h.1 b hb'
      · rw [insertNote, if_neg hle, sortedByTime, List.pairwise_cons]
        refine ⟨?_, ?_⟩
        · intro b hb
          rcases List.mem_cons.mp hb with rfl | hb'
          · exact le_of_lt (not_le.mp hle)
          · exact le_trans (le_of_lt (not_le.mp hle)) (h.1 b hb')
        · exact List.pairwise_cons.mpr h


/-- One-step unfolding of the stable sort over an appended element. -/
theorem sortByTime_append_one (l : List NoteEvent) (e : NoteEvent) :
    sortByTime (l ++ [e]) = insertNote e (sortByTime l) := by
  rw [sortByTime, sortByTime, List.foldl_append]
  rfl

/-- The stable sort is the identity on an already sorted pattern. -/
theorem sortByTime_sorted_id :
    ∀ {l : List NoteEvent}, sortedByTime l → sortByTime l = l := by
  intro l
  induction l using List.reverseRecOn with
  | nil => intro _; rfl
  | append_singleton l a ih =>
      intro h
      have hsp := (List.pairwise_append.mp h)
      rw [sortByTime_append_one, ih hsp.1]
      exact insertNote_of_all_le fun b hb => hsp.2.2 b hb a (by simp)

/-- If no element matches, the delete scan finds nothing. -/
theorem removeMatch_none {p : NoteEvent → Bool} :
    ∀ {l : List NoteEvent}, (∀ a ∈ l, p a = false) →
      removeMatch p l = none := by
  intro l
  induction l with
  | nil => intro _; rfl
  | cons a l ih =>
      intro h
      rw [removeMatch, h a (List.mem_cons_self a l)]
      rw [ih fun a' ha' => h a' (List.mem_cons_of_mem a ha')]
      rfl

/-- Deleting the uniquely matching freshly inserted note restores the
pattern exactly. -/
theorem removeMatch_insert {p : NoteEvent → Bool} {e : NoteEvent}
    (he : p e = true) :
    ∀ {l : List NoteEvent}, (∀ a ∈ l, p a = false) →
      removeMatch p (insertNote e l) = some l := by
  intro l
  induction l with
  | nil =>
      intro _
      rw [insertNote, removeMatch, he]
      rfl
  | cons a l ih =>
      intro h
      by_cases hle : a.time ≤ e.time
      · rw [insertNote, if_pos hle, removeMatch,
          h a (List.mem_cons_self a l),
          ih fun a' ha' => h a' (List.mem_cons_of_mem a ha')]
        rfl
      · rw [insertNote, if_neg hle, removeMatch, he]
        rfl

/-- The two-decimal rounding moves a time by at most `1/200`. -/
theorem abs_round2_sub_le (t : ℚ) : |round2 t - t| ≤ 1 / 200 := by
  rw [round2]
  have h := abs_sub_round (t * 100)
  rw [abs_sub_comm] at h
  have heq : ((round (t * 100) : ℤ) : ℚ) / 100 - t =
      (((round (t * 100) : ℤ) : ℚ) - t * 100) / 100 := by ring
  rw [heq, abs_div]
  rw [show |(100 : ℚ)| = 100 by norm_num]
  linarith [h]

/-- The note a track tap inserts: 2-decimal-rounded tapped time, currently
selected type, tapped lane (editorScene.js lines 1074-1075). -/
def tapNote (es : EditorScene) (x y : ℚ) : NoteEvent :=
  ⟨round2 (tapTime es y), (es.selectedBlockType : ℤ), tapLane es x⟩

/-- When a pointer-down misses every control and hits the track, the
`onTouchStart` cascade reaches the track-tap branch. -/
theorem onTouchStart_track (storage : String → Option (List NoteEvent))
    (x y : ℚ) (es : EditorScene)
    (hcl : es.computeLayout = es)
    (h1 : hitBoxO es.bounds.scrollHandle x y = false)
    (h2 : findIdxBox es.bounds.noteBoxes x y = none)
    (h3 : hitBoxO es.bounds.songPrev x y = false)
    (h4 : hitBoxO es.bounds.songNext x y = false)
    (h5 : findIdxBox es.bounds.blockBoxes x y = none)
    (h6 : hitBoxO es.bounds.delete x y = false)
    (h7 : hitBoxO es.bounds.scrollUp x y = false)
    (h8 : hitBoxO es.bounds.scrollDown x y = false)
    (h9 : hitBoxO es.bounds.save x y = false)
    (h10 : hitBoxO es.bounds.test x y = false)
    (h11 : hitBoxO es.bounds.back x y = false)
    (h12 : hitBoxO es.bounds.track x y = true) :
    es.onTouchStart storage x y = es.trackTap x y := by
  simp only [EditorScene.onTouchStart, hcl, h1, h2, h3, h4, h5, h6, h7, h8,
    h9, h10, h11, h12, Bool.false_eq_true, if_false, if_true]

/-- The insert path of the track tap: valid time, no nearby note in the
lane, delete mode off — one note inserted at the rounded time, pattern
re-sorted (stably: an ordered insertion into the sorted pattern). -/
theorem trackTap_insert (x y : ℚ) (es : EditorScene)
    (hdm : es.deleteMode = false)
    (ht0 : 0 ≤ tapTime es y) (ht1 : tapTime es y ≤ es.curLevel.duration)
    (hsorted : sortedByTime es.spawns)
    (hfar : ∀ sp ∈ es.spawns, sp.lane = tapLane es x →
      10 / es.pxPerSecond < |sp.time - tapTime es y|) :
    es.trackTap x y =
      { es with spawns := insertNote (tapNote es x y) es.spawns } := by
  have hcond : ¬(tapTime es y < 0 ∨ es.curLevel.duration < tapTime es y) :=
    not_or.mpr ⟨not_lt.mpr ht0, not_lt.mpr ht1⟩
  have hpred : ∀ a ∈ es.spawns,
      (decide (a.lane = tapLane es x) &&
        decide (|a.time - tapTime es y| ≤ 10 / es.pxPerSecond)) = false := by
    intro a ha
    by_cases hl : a.lane = tapLane es x
    · simp [hl, not_le.mpr (hfar a ha hl)]
    · simp [hl]
  simp only [EditorScene.trackTap, if_neg hcond, removeMatch_none hpred, hdm,
    Bool.false_eq_true, if_false]
  rw [sortByTime_append_one, sortByTime_sorted_id hsorted]
  rfl

/-- The toggle-delete path of the track tap: valid time and a matching note
found — that note is spliced out. -/
theorem trackTap_delete (x y : ℚ) (es : EditorScene) (l : List NoteEvent)
    (ht0 : 0 ≤ tapTime es y) (ht1 : tapTime es y ≤ es.curLevel.duration)
    (hfound : removeMatch
      (fun sp => decide (sp.lane = tapLane es x) &&
        decide (|sp.time - tapTime es y| ≤ 10 / es.pxPerSecond))
      es.spawns = some l) :
    es.trackTap x y = { es with spawns := l } := by
  have hcond : ¬(tapTime es y < 0 ∨ es.curLevel.duration < tapTime es y) :=
    not_or.mpr ⟨not_lt.mpr ht0, not_lt.mpr ht1⟩
  simp only [EditorScene.trackTap, if_neg hcond, hfound]

/-- `computeLayout` still fixes the state after a pattern replacement, as
only the scroll clamp touches the state and it ignores the pattern. -/
theorem computeLayout_set_spawns (es : EditorScene) (sp : List NoteEvent)
    (hcl : es.computeLayout = es) :
    EditorScene.computeLayout { es with spawns := sp } =
      { es with spawns := sp } := by
  have hs2 : max 0 (min es.scrollOffset es.maxScroll) = es.scrollOffset :=
    congrArg EditorScene.scrollOffset hcl
  show ({ es with spawns := sp, scrollOffset := max 0 (min es.scrollOffset es.maxScroll) } : EditorScene) = { es with spawns := sp }
  rw [hs2]

/-- C7 (amended): a track tap (a pointer-down that misses every control and
hits the track) at a valid time, with no existing note of the tapped lane
within the `10 px / pxPerSecond` time threshold and with delete mode OFF,
inserts exactly one note at the 2-decimal-rounded tapped time with the
selected type and lane into the sorted pattern (the stable re-sort is an
ordered insertion); a second identical tap removes exactly that note,
restoring the pattern. (The original claim held for every track tap; with
delete mode on the tap inserts nothing — see the counterexample.) -/
theorem C7_toggle_roundtrip (storage : String → Option (List NoteEvent))
    (x y : ℚ) (es : EditorScene)
    (hcl : es.computeLayout = es)
    (h1 : hitBoxO es.bounds.scrollHandle x y = false)
    (h2 : findIdxBox es.bounds.noteBoxes x y = none)
    (h3 : hitBoxO es.bounds.songPrev x y = false)
    (h4 : hitBoxO es.bounds.songNext x y = false)
    (h5 : findIdxBox es.bounds.blockBoxes x y = none)
    (h6 : hitBoxO es.bounds.delete x y = false)
    (h7 : hitBoxO es.bounds.scrollUp x y = false)
    (h8 : hitBoxO es.bounds.scrollDown x y = false)
    (h9 : hitBoxO es.bounds.save x y = false)
    (h10 : hitBoxO es.bounds.test x y = false)
    (h11 : hitBoxO es.bounds.back x y = false)
    (h12 : hitBoxO es.bounds.track x y = true)
    (hdm : es.deleteMode = false)
    (hsorted : sortedByTime es.spawns)
    (hpps : es.pxPerSecond = 50)
    (ht0 : 0 ≤ tapTime es y) (ht1 : tapTime es y ≤ es.curLevel.duration)
    (hfar : ∀ sp ∈ es.spawns, sp.lane = tapLane es x →
      10 / es.pxPerSecond < |sp.time - tapTime es y|) :
    (es.onTouchStart storage x y).spawns =
      insertNote (tapNote es x y) es.spawns ∧
    sortedByTime (es.onTouchStart storage x y).spawns ∧
    ((es.onTouchStart storage x y).onTouchStart storage x y).spawns =
      es.spawns := by
  have htap1 : es.onTouchStart storage x y = es.trackTap x y :=
    onTouchStart_track storage x y es hcl h1 h2 h3 h4 h5 h6 h7 h8 h9 h10
      h11 h12
  have hins := trackTap_insert x y es hdm ht0 ht1 hsorted hfar
  have hre : (decide ((tapNote es x y).lane = tapLane es x) &&
      decide (|(tapNote es x y).time - tapTime es y| ≤
        10 / es.pxPerSecond)) = true := by
    have habs : |round2 (tapTime es y) - tapTime es y| ≤ 1 / 200 :=
      abs_round2_sub_le (tapTime es y)
    have hth : |round2 (tapTime es y) - tapTime es y| ≤
        10 / es.pxPerSecond := by
      rw [hpps]
      linarith
    simp [tapNote, hth]
  have hpred : ∀ a ∈ es.spawns,
      (decide (a.lane = tapLane es x) &&
        decide (|a.time - tapTime es y| ≤ 10 / es.pxPerSecond)) = false := by
    intro a ha
    by_cases hl : a.lane = tapLane es x
    · simp [hl, not_le.mpr (hfar a ha hl)]
    · simp [hl]
  refine ⟨by rw [htap1, hins], ?_, ?_⟩
  · rw [htap1, hins]
    exact insertNote_sorted hsorted
  · rw [htap1, hins]
    have hcl' := computeLayout_set_spawns es
      (insertNote (tapNote es x y) es.spawns) hcl
    have htap2 := onTouchStart_track storage x y
      { es with spawns := insertNote (tapNote es x y) es.spawns }
      hcl' h1 h2 h3 h4 h5 h6 h7 h8 h9 h10 h11 h12
    rw [htap2]
    have hfound : removeMatch
        (fun sp => decide (sp.lane = tapLane es x) &&
          decide (|sp.time - tapTime es y| ≤ 10 / es.pxPerSecond))
        (insertNote (tapNote es x y) es.spawns) = some es.spawns :=
      removeMatch_insert hre hpred
    have hrem := trackTap_delete x y
      { es with spawns := insertNote (tapNote es x y) es.spawns }
      es.spawns ht0 ht1 hfound
    rw [hrem]

/-- Interaction bounds with only the track box set (as before the first
render pass fills the control boxes). -/
def trackOnlyBounds : EBounds :=
  { scrollHandle := none, songPrev := none, songNext := none, delete := none,
    scrollUp := none, scrollDown := none, save := none, test := none,
    back := none, track := some ⟨80, 200, 266, 420⟩, noteBoxes := [],
    blockBoxes := [] }

/-- A concrete editor state over a 120 s song on a 400 × 700 canvas. -/
def editorTrack : EditorScene :=
  { levels := [⟨"song", 120, []⟩], currentLevelIndex := 0, pxPerSecond := 50,
    scrollOffset := 0, selectedBlockType := 0, spawns := [], outputText := "",
    deleteMode := false, bounds := trackOnlyBounds, dragging := false,
    dragNoteIndex := none, scrollHandleDragging := false,
    scrollHandleOffset := 0, canvasW := 400, canvasH := 700 }

/-- An empty persistence collaborator. -/
def storage0 : String → Option (List NoteEvent) := fun _ => none

/-- `editorTrack` with delete mode toggled on. -/
def c7DelScene : EditorScene := { editorTrack with deleteMode := true }

/-- The scroll clamp fixes `editorTrack`. -/
theorem editorTrack_layout_fixed : editorTrack.computeLayout = editorTrack := by
  show ({ editorTrack with scrollOffset := max 0 (min editorTrack.scrollOffset editorTrack.maxScroll) } : EditorScene) = editorTrack
  have h : max 0 (min editorTrack.scrollOffset editorTrack.maxScroll) =
      (0 : ℚ) := by
    norm_num [EditorScene.maxScroll, EditorScene.timelineHeightPx,
      EditorScene.viewportHeight, EditorScene.curLevel, editorTrack]
  rw [h]
  rfl

/-- The scroll clamp fixes `c7DelScene` too. -/
theorem c7DelScene_layout_fixed : c7DelScene.computeLayout = c7DelScene := by
  show ({ c7DelScene with scrollOffset := max 0 (min c7DelScene.scrollOffset c7DelScene.maxScroll) } : EditorScene) = c7DelScene
  have h : max 0 (min c7DelScene.scrollOffset c7DelScene.maxScroll) =
      (0 : ℚ) := by
    norm_num [EditorScene.maxScroll, EditorScene.timelineHeightPx,
      EditorScene.viewportHeight, EditorScene.curLevel, c7DelScene,
      editorTrack]
  rw [h]
  rfl

/-- C7 counterexample: with delete mode on, a track tap at a valid time with
no note anywhere near does NOT insert a note — `spawns` stays empty — while
the claim promises an insertion for every such tap. -/
theorem C7_counterexample :
    c7DelScene.deleteMode = true ∧
    hitBoxO c7DelScene.bounds.track 100 250 = true ∧
    (0 ≤ tapTime c7DelScene 250 ∧
      tapTime c7DelScene 250 ≤ c7DelScene.curLevel.duration) ∧
    c7DelScene.spawns = [] ∧
    (c7DelScene.onTouchStart storage0 100 250).spawns = [] := by
  have htrack : hitBoxO c7DelScene.bounds.track 100 250 = true := by
    norm_num [hitBoxO, c7DelScene, editorTrack, trackOnlyBounds]
  have ht : (0 : ℚ) ≤ tapTime c7DelScene 250 ∧
      tapTime c7DelScene 250 ≤ c7DelScene.curLevel.duration := by
    norm_num [tapTime, editorTimeOfY, EditorScene.viewportY,
      EditorScene.curLevel, c7DelScene, editorTrack]
  have htap := onTouchStart_track storage0 100 250 c7DelScene
    c7DelScene_layout_fixed rfl rfl rfl rfl rfl rfl rfl rfl rfl rfl rfl
    htrack
  refine ⟨rfl, htrack, ht, rfl, ?_⟩
  rw [htap]
  have hcond : ¬(tapTime c7DelScene 250 < 0 ∨
      c7DelScene.curLevel.duration < tapTime c7DelScene 250) :=
    not_or.mpr ⟨not_lt.mpr ht.1, not_lt.mpr ht.2⟩
  simp only [EditorScene.trackTap, if_neg hcond]
  have hsp : c7DelScene.spawns = [] := rfl
  rw [hsp]
  simp only [removeMatch]
  have hdm : c7DelScene.deleteMode = true := rfl
  rw [hdm]
  simp
  exact hsp

/-- Witness for the amended C7: tapping the empty track of `editorTrack` at
`(100, 250)` (time 1.0 s, lane 0) inserts exactly one note, and an identical
second tap removes it again. -/
theorem C7_toggle_roundtrip_witness :
    editorTrack.deleteMode = false ∧
    hitBoxO editorTrack.bounds.track 100 250 = true ∧
    0 ≤ tapTime editorTrack 250 ∧
    ((editorTrack.onTouchStart storage0 100 250).spawns =
      insertNote (tapNote editorTrack 100 250) editorTrack.spawns ∧
    sortedByTime (editorTrack.onTouchStart storage0 100 250).spawns ∧
    ((editorTrack.onTouchStart storage0 100 250).onTouchStart storage0
      100 250).spawns = editorTrack.spawns) :=
  ⟨rfl,
   by norm_num [hitBoxO, editorTrack, trackOnlyBounds],
   by norm_num [tapTime, editorTimeOfY, EditorScene.viewportY, editorTrack],
   C7_toggle_roundtrip storage0 100 250 editorTrack
     editorTrack_layout_fixed rfl rfl rfl rfl rfl rfl rfl rfl rfl rfl rfl
     (by norm_num [hitBoxO, editorTrack, trackOnlyBounds])
     rfl
     (by simp [sortedByTime, editorTrack])
     rfl
     (by norm_num [tapTime, editorTimeOfY, EditorScene.viewportY, editorTrack])
     (by norm_num [tapTime, editorTimeOfY, EditorScene.viewportY,
        EditorScene.curLevel, editorTrack])
     (by intro sp hsp _; simp [editorTrack] at hsp)⟩

/-! ## Drag-state machine (claim C8) -/

/-- The track-tap branch never touches the drag flags. -/
theorem trackTap_flags (x y : ℚ) (es : EditorScene) :
    (es.trackTap x y).dragging = es.dragging ∧
    (es.trackTap x y).scrollHandleDragging = es.scrollHandleDragging := by
  simp only [EditorScene.trackTap]
  constructor <;> (repeat' split) <;> rfl

set_option maxHeartbeats 1000000 in
/-- Every `onTouchStart` branch either leaves the drag flags alone, starts
only the scroll-handle drag, or starts only the note drag. -/
theorem onTouchStart_flags (storage : String → Option (List NoteEvent))
    (x y : ℚ) (es : EditorScene) :
    ((es.onTouchStart storage x y).dragging = es.dragging ∧
     (es.onTouchStart storage x y).scrollHandleDragging = true) ∨
    ((es.onTouchStart storage x y).dragging = es.dragging ∧
     (es.onTouchStart storage x y).scrollHandleDragging =
       es.scrollHandleDragging) ∨
    ((es.onTouchStart storage x y).dragging = true ∧
     (es.onTouchStart storage x y).scrollHandleDragging =
       es.scrollHandleDragging) := by
  simp only [EditorScene.onTouchStart]
  split
  · left
    exact ⟨rfl, rfl⟩
  · split
    · right; right
      exact ⟨rfl, rfl⟩
    · right; left
      constructor <;> (repeat' split) <;>
        first
          | rfl
          | exact (trackTap_flags x y es.computeLayout).1
          | exact (trackTap_flags x y es.computeLayout).2

/-- `onTouchMove` never touches the drag flags. -/
theorem onTouchMove_flags (x y : ℚ) (es : EditorScene) :
    (es.onTouchMove x y).dragging = es.dragging ∧
    (es.onTouchMove x y).scrollHandleDragging = es.scrollHandleDragging := by
  simp only [EditorScene.onTouchMove]
  constructor <;> (repeat' split) <;> rfl

/-- From the `Idle` state a pointer-down activates at most one drag mode. -/
theorem onTouchStart_excl (storage : String → Option (List NoteEvent))
    (x y : ℚ) (es : EditorScene) (h : editorIdle es) :
    dragExclusive (es.onTouchStart storage x y) := by
  rcases onTouchStart_flags storage x y es with ⟨hd, _⟩ | ⟨hd, hs⟩ | ⟨_, hs⟩
  · rintro ⟨hc, -⟩
    rw [hd, h.1] at hc
    exact Bool.false_ne_true hc
  · rintro ⟨hc, -⟩
    rw [hd, h.1] at hc
    exact Bool.false_ne_true hc
  · rintro ⟨-, hc⟩
    rw [hs, h.2] at hc
    exact Bool.false_ne_true hc

/-- `onTouchMove` preserves drag exclusivity. -/
theorem onTouchMove_excl (x y : ℚ) (es : EditorScene)
    (h : dragExclusive es) : dragExclusive (es.onTouchMove x y) := by
  obtain ⟨hd, hs⟩ := onTouchMove_flags x y es
  rintro ⟨hc1, hc2⟩
  rw [hd] at hc1
  rw [hs] at hc2
  exact h ⟨hc1, hc2⟩

/-- `onTouchEnd` preserves drag exclusivity. -/
theorem onTouchEnd_excl (es : EditorScene) (h : dragExclusive es) :
    dragExclusive es.onTouchEnd := by
  unfold EditorScene.onTouchEnd
  split
  · rintro ⟨-, hc⟩
    exact Bool.false_ne_true hc
  · split
    · rintro ⟨hc, -⟩
      exact Bool.false_ne_true hc
    · exact h

/-- C8 (amended): for every pointer-event sequence in which each
pointer-down is delivered while the editor is Idle (i.e. the previous drag
has been resolved by a pointer-up, as the spec demands of the host), at most
one drag mode is active at every instant — the state is always one of Idle,
DraggingNote, DraggingScrollHandle.  Without that delivery discipline the
code has no guard, and a pointer-down during an active note drag also
activates the scroll-handle drag (see the counterexample). -/
theorem C8_drag_exclusive (storage : String → Option (List NoteEvent))
    (evs : List EEvent) (es0 : EditorScene)
    (h0 : dragExclusive es0)
    (hdowns : ∀ n (hn : n < evs.length), (evs.get ⟨n, hn⟩).isDown = true →
      editorIdle (processEvents storage (evs.take n) es0)) :
    ∀ n : ℕ, dragExclusive (processEvents storage (evs.take n) es0) := by
  intro n
  induction n with
  | zero => simpa [processEvents] using h0
  | succ n ih =>
      rcases lt_or_ge n evs.length with hlt | hge
      · have htake : evs.take (n + 1) = evs.take n ++ [evs.get ⟨n, hlt⟩] := by
          rw [List.take_succ]
          congr 1
          rw [List.getElem?_eq_getElem hlt]
          rfl
        have hproc : processEvents storage (evs.take (n + 1)) es0 =
            editorStep storage (processEvents storage (evs.take n) es0)
              (evs.get ⟨n, hlt⟩) := by
          rw [htake, processEvents, List.foldl_append]
          rfl
        rw [hproc]
        cases hev : evs.get ⟨n, hlt⟩ with
        | down x y =>
            have hidle := hdowns n hlt (by rw [hev]; rfl)
            exact onTouchStart_excl storage x y _ hidle
        | move x y => exact onTouchMove_excl x y _ ih
        | up => exact onTouchEnd_excl _ ih
      · rw [List.take_of_length_le (by omega)]
        rw [List.take_of_length_le hge] at ih
        exact ih

/-- Interaction bounds holding one note box and the scroll handle, as after
a render that shows one note. -/
def c8Bounds : EBounds :=
  { scrollHandle := some ⟨500, 300, 24, 40⟩, songPrev := none,
    songNext := none, delete := none, scrollUp := none, scrollDown := none,
    save := none, test := none, back := none, track := none,
    noteBoxes := [⟨100, 250, 30, 16⟩], blockBoxes := [] }

/-- `editorTrack` with the C8 bounds. -/
def c8Scene : EditorScene := { editorTrack with bounds := c8Bounds }

/-- The state after the first pointer-down of the C8 counterexample: the
note drag is active. -/
def c8Mid : EditorScene := { c8Scene with dragging := true, dragNoteIndex := some 0 }

/-- The state after the second pointer-down: the scroll-handle drag has been
started on top of the still-active note drag. -/
def c8End : EditorScene := { c8Mid with scrollHandleDragging := true, scrollHandleOffset := 10 }

/-- C8 counterexample: from Idle, a pointer-down on the note box starts the
note drag; a second pointer-down (no pointer-up in between) on the scroll
handle then ALSO starts the scroll-handle drag, so both drag modes are
active at once — the claimed exclusivity invariant fails for event sequences
with unmatched pointer-downs. -/
theorem C8_counterexample :
    c8Scene.dragging = false ∧ c8Scene.scrollHandleDragging = false ∧
    (processEvents storage0 [EEvent.down 110 255, EEvent.down 510 310]
      c8Scene).dragging = true ∧
    (processEvents storage0 [EEvent.down 110 255, EEvent.down 510 310]
      c8Scene).scrollHandleDragging = true := by
  have hclam : max 0 (min c8Scene.scrollOffset c8Scene.maxScroll) =
      (0 : ℚ) := by
    norm_num [EditorScene.maxScroll, EditorScene.timelineHeightPx,
      EditorScene.viewportHeight, EditorScene.curLevel, c8Scene, editorTrack]
  have hcl : c8Scene.computeLayout = c8Scene := by
    show ({ c8Scene with scrollOffset := max 0 (min c8Scene.scrollOffset c8Scene.maxScroll) } : EditorScene) = c8Scene
    rw [hclam]
    rfl
  have hs1 : processEvents storage0 [EEvent.down 110 255] c8Scene = c8Mid := by
    show c8Scene.onTouchStart storage0 110 255 = c8Mid
    simp only [EditorScene.onTouchStart, hcl]
    have hsh : hitBoxO c8Scene.bounds.scrollHandle 110 255 = false := by
      norm_num [hitBoxO, c8Scene, c8Bounds, editorTrack]
    have hnb : findIdxBox c8Scene.bounds.noteBoxes 110 255 = some 0 := by
      have : hitBoxO (some (⟨100, 250, 30, 16⟩ : Box)) 110 255 = true := by
        norm_num [hitBoxO]
      simp [findIdxBox, c8Scene, c8Bounds, editorTrack, this]
    rw [hsh, hnb]
    simp [c8Mid]
  have hstep2 : processEvents storage0
      [EEvent.down 110 255, EEvent.down 510 310] c8Scene =
      EditorScene.onTouchStart storage0 510 310 c8Mid := by
    show EditorScene.onTouchStart storage0 510 310
        (c8Scene.onTouchStart storage0 110 255) = _
    rw [show c8Scene.onTouchStart storage0 110 255 = c8Mid from hs1]
  have hcl2 : c8Mid.computeLayout = c8Mid := by
    show ({ c8Mid with scrollOffset := max 0 (min c8Mid.scrollOffset c8Mid.maxScroll) } : EditorScene) = c8Mid
    rw [show max 0 (min c8Mid.scrollOffset c8Mid.maxScroll) = (0 : ℚ) from hclam]
    rfl
  have hs2 : EditorScene.onTouchStart storage0 510 310 c8Mid = c8End := by
    simp only [EditorScene.onTouchStart, hcl2]
    have hsh : hitBoxO c8Mid.bounds.scrollHandle 510 310 = true := by
      norm_num [hitBoxO, c8Mid, c8Scene, c8Bounds, editorTrack]
    rw [hsh]
    norm_num [boxY, c8End, c8Mid, c8Scene, c8Bounds, editorTrack]
  rw [hstep2, hs2]
  exact ⟨rfl, rfl, rfl, rfl⟩

/-- Witness for the amended C8: a down on empty space followed by an up,
with every down delivered in the Idle state. -/
theorem C8_drag_exclusive_witness :
    dragExclusive editorTrack ∧
    (∀ n (hn : n < ([EEvent.down 0 0, EEvent.up] : List EEvent).length),
      (([EEvent.down 0 0, EEvent.up] : List EEvent).get ⟨n, hn⟩).isDown =
        true →
      editorIdle (processEvents storage0
        (([EEvent.down 0 0, EEvent.up] : List EEvent).take n) editorTrack)) ∧
    ∀ n : ℕ, dragExclusive (processEvents storage0
      (([EEvent.down 0 0, EEvent.up] : List EEvent).take n) editorTrack) := by
  have h0 : dragExclusive editorTrack := by
    rintro ⟨hc, -⟩
    exact Bool.false_ne_true hc
  have hdowns : ∀ n (hn : n < ([EEvent.down 0 0, EEvent.up] :
      List EEvent).length),
      (([EEvent.down 0 0, EEvent.up] : List EEvent).get ⟨n, hn⟩).isDown =
        true →
      editorIdle (processEvents storage0
        (([EEvent.down 0 0, EEvent.up] : List EEvent).take n) editorTrack) := by
    intro n hn hd
    match n, hn with
    | 0, _ => exact ⟨rfl, rfl⟩
    | 1, _ => simp [EEvent.isDown] at hd
  exact ⟨h0, hdowns,
    C8_drag_exclusive storage0 [EEvent.down 0 0, EEvent.up] editorTrack h0
      hdowns⟩

/-! ## Stale note-drag index (claim C9) -/

/-- C9: a pointer-move arriving while a note drag is active whose recorded
drag index no longer refers to an entry of the current pattern (for example
after `updateLevelData` replaced the pattern on a song switch) is a silent
no-op: `spawns[dragNoteIndex]` is undefined, the handler returns early, the
pattern is not mutated and no out-of-bounds write occurs (only the
scroll-offset clamp of `computeLayout` happens, as on every move). -/
theorem C9_stale_drag_noop (x y : ℚ) (es : EditorScene)
    (hsh : es.scrollHandleDragging = false) (hd : es.dragging = true)
    (hstale : ∀ i, es.dragNoteIndex = some i → es.spawns.get? i = none) :
    es.onTouchMove x y = es.computeLayout ∧
    (es.onTouchMove x y).spawns = es.spawns := by
  have hmain : es.onTouchMove x y = es.computeLayout := by
    simp only [EditorScene.onTouchMove, hsh, hd, Bool.not_true,
      Bool.false_eq_true, if_false]
    have hdi : es.computeLayout.dragNoteIndex = es.dragNoteIndex := rfl
    cases hopt : es.dragNoteIndex with
    | none =>
        rw [hdi, hopt]
    | some i =>
        rw [hdi, hopt]
        have hget : es.computeLayout.spawns.get? i = none := hstale i hopt
        simp only [hget]
  refine ⟨hmain, ?_⟩
  rw [hmain]
  rfl

/-- The C9 witness state: a note drag left active with index 5 while the
current pattern is empty. -/
def c9Scene : EditorScene := { editorTrack with dragging := true, dragNoteIndex := some 5 }

/-- Witness for C9: at the concrete stale state, the move handler leaves the
pattern untouched. -/
theorem C9_stale_drag_noop_witness :
    c9Scene.scrollHandleDragging = false ∧ c9Scene.dragging = true ∧
    (∀ i, c9Scene.dragNoteIndex = some i → c9Scene.spawns.get? i = none) ∧
    (c9Scene.onTouchMove 100 300 = c9Scene.computeLayout ∧
     (c9Scene.onTouchMove 100 300).spawns = c9Scene.spawns) := by
  have hstale : ∀ i, c9Scene.dragNoteIndex = some i →
      c9Scene.spawns.get? i = none := by
    intro i hi
    have h5 : (5 : ℕ) = i := Option.some.inj hi
    rw [← h5]
    rfl
  exact ⟨rfl, rfl, hstale, C9_stale_drag_noop 100 300 c9Scene rfl rfl hstale⟩

end MusicGame
